import Mathlib

set_option maxHeartbeats 1000000

/-!  Shallow embedding of the native OS automation layer of the dashboard
application: process-name matching, per-application and master volume
control with explicit resource traces, and keyboard event injection.
Python strings are modelled as lists of characters, with ASCII case
mapping; fallible platform calls are modelled by explicit fault flags. -/

/-- Python strings, modelled as lists of characters. -/
abbrev PyStr := List Char

/-- Python `str.lower()`: per-character ASCII lower-casing. -/
def pyLower (s : PyStr) : PyStr := s.map Char.toLower

/-- Python `a.startswith(b)` as `startsWithList b a`: the first list is the
needle, the second the haystack. -/
def startsWithList : PyStr → PyStr → Bool
  | [], _ => true
  | _ :: _, [] => false
  | a :: as, b :: bs => if a = b then startsWithList as bs else false

/-- Python substring test `needle in hay` on character lists. -/
def containsList (needle : PyStr) : PyStr → Bool
  | [] => needle.isEmpty
  | c :: rest => startsWithList needle (c :: rest) || containsList needle rest

/-- Python `hay.endswith(suffix)`. -/
def endsWithList (suffix hay : PyStr) : Bool :=
  startsWithList suffix.reverse hay.reverse

/-- The literal `".exe"` used by `_match_process` in `windows/audio.py`. -/
def exeSuffix : PyStr := ['.', 'e', 'x', 'e']

/-- The token `"ctrl"`. -/
def sCtrl : PyStr := ['c', 't', 'r', 'l']

/-- The token `"shift"`. -/
def sShift : PyStr := ['s', 'h', 'i', 'f', 't']

/-- The token `"alt"`. -/
def sAlt : PyStr := ['a', 'l', 't']

/-- The token `"win"`. -/
def sWin : PyStr := ['w', 'i', 'n']

/-- The token `"a"`. -/
def sA : PyStr := ['a']

/-- The string `"chrome"`. -/
def sChrome : PyStr := ['c', 'h', 'r', 'o', 'm', 'e']

/-- The string `"chrome.exe"`. -/
def sChromeExe : PyStr := ['c', 'h', 'r', 'o', 'm', 'e', '.', 'e', 'x', 'e']

/-- The string `"Chrome.exe"` (capitalised variant). -/
def sChromeExeCap : PyStr := ['C', 'h', 'r', 'o', 'm', 'e', '.', 'e', 'x', 'e']

/-- The string `"spotify"`. -/
def sSpotify : PyStr := ['s', 'p', 'o', 't', 'i', 'f', 'y']

/-- The string `"Spotify.exe"`. -/
def sSpotifyCapExe : PyStr := ['S', 'p', 'o', 't', 'i', 'f', 'y', '.', 'e', 'x', 'e']

/-- The string `"cod"`. -/
def sCod : PyStr := ['c', 'o', 'd']

/-- The string `"discord.exe"`. -/
def sDiscordExe : PyStr := ['d', 'i', 's', 'c', 'o', 'r', 'd', '.', 'e', 'x', 'e']

/-- The string `"firefox"`. -/
def sFirefox : PyStr := ['f', 'i', 'r', 'e', 'f', 'o', 'x']

/-- `_match_process` from `windows/audio.py` (lines 187-198).  The process
name is `None` or a string; Python `not process_name` is true for both
`None` and the empty string. -/
def match_process (target : PyStr) (process_name : Option PyStr) : Bool :=
  match process_name with
  | none => false
  | some pn =>
    if pn = [] then false
    else
      let target_norm := pyLower target
      let proc_norm := pyLower pn
      if target_norm = proc_norm then true
      else if endsWithList exeSuffix proc_norm &&
          target_norm = proc_norm.take (proc_norm.length - 4) then true
      else if endsWithList exeSuffix target_norm &&
          target_norm.take (target_norm.length - 4) = proc_norm then true
      else containsList target_norm proc_norm

/-! Key sequence helpers from `utils/key_sequences.py`. -/

/-- `MODIFIER_ORDER` from `utils/key_sequences.py`. -/
def MODIFIER_ORDER : List PyStr := [sCtrl, sShift, sAlt, sWin]

/-- The `unique` accumulation loop used by `order_tokens`: append a token
to the accumulator unless it is already present. -/
def pyUniqueStep {α : Type} [DecidableEq α] (acc : List α) (t : α) : List α :=
  if t ∈ acc then acc else acc ++ [t]

/-- First-occurrence de-duplication, as the Python loop
`for token in tokens: if token not in unique: unique.append(token)`. -/
def pyUnique {α : Type} [DecidableEq α] (xs : List α) : List α :=
  xs.foldl pyUniqueStep []

/-- `order_tokens` from `utils/key_sequences.py` (lines 72-79). -/
def order_tokens (tokens : List PyStr) : List PyStr :=
  let unique := pyUnique tokens
  let modifiers := MODIFIER_ORDER.filter (fun token => decide (token ∈ unique))
  let others := unique.filter (fun token => decide (token ∉ MODIFIER_ORDER))
  modifiers ++ others

/-! Keyboard injection from `windows/input.py`. -/

/-- `VIRTUAL_KEYS` from `windows/input.py` (lines 36-61). -/
def VIRTUAL_KEYS : List (PyStr × Nat) := [
  (sCtrl, 0x11),
  (sShift, 0x10),
  (sAlt, 0x12),
  (sWin, 0x5B),
  (['e', 'n', 't', 'e', 'r'], 0x0D),
  (['t', 'a', 'b'], 0x09),
  (['e', 's', 'c', 'a', 'p', 'e'], 0x1B),
  (['b', 'a', 'c', 'k', 's', 'p', 'a', 'c', 'e'], 0x08),
  (['d', 'e', 'l', 'e', 't', 'e'], 0x2E),
  (['i', 'n', 's', 'e', 'r', 't'], 0x2D),
  (['h', 'o', 'm', 'e'], 0x24),
  (['e', 'n', 'd'], 0x23),
  (['p', 'a', 'g', 'e', 'u', 'p'], 0x21),
  (['p', 'a', 'g', 'e', 'd', 'o', 'w', 'n'], 0x22),
  (['l', 'e', 'f', 't'], 0x25),
  (['r', 'i', 'g', 'h', 't'], 0x27),
  (['u', 'p'], 0x26),
  (['d', 'o', 'w', 'n'], 0x28),
  (['s', 'p', 'a', 'c', 'e'], 0x20),
  (['p', 'r', 'i', 'n', 't', 's', 'c', 'r', 'e', 'e', 'n'], 0x2C),
  (['p', 'a', 'u', 's', 'e'], 0x13),
  (['c', 'a', 'p', 's', 'l', 'o', 'c', 'k'], 0x14),
  (['n', 'u', 'm', 'l', 'o', 'c', 'k'], 0x90),
  (['s', 'c', 'r', 'o', 'l', 'l', 'l', 'o', 'c', 'k'], 0x91)]

/-- Association-list lookup, as Python `dict` access on `VIRTUAL_KEYS`. -/
def lookupTable : List (PyStr × Nat) → PyStr → Option Nat
  | [], _ => none
  | (k, v) :: rest, t => if t = k then some v else lookupTable rest t

/-- Python `int(...)` on a string of decimal digits. -/
def natOfDigits (ds : List Char) : Nat :=
  ds.foldl (fun a c => 10 * a + (c.toNat - 48)) 0

/-- `_virtual_key` from `windows/input.py` (lines 64-76).  The token is
lower-cased, looked up in the table, then tried as `f<N>` with
`1 <= N <= 35`, then as a single character whose upper-cased code lies in
`[0x30, 0x5A]`. -/
def virtual_key (token : PyStr) : Option Nat :=
  let t := pyLower token
  match lookupTable VIRTUAL_KEYS t with
  | some vk => some vk
  | none =>
    let fDigits := t.drop 1
    let fn : Option Nat :=
      if startsWithList ['f'] t && !fDigits.isEmpty && fDigits.all Char.isDigit then
        let number := natOfDigits fDigits
        if 1 ≤ number ∧ number ≤ 35 then some (0x70 + (number - 1)) else none
      else none
    match fn with
    | some vk => some vk
    | none =>
      match t with
      | [c] =>
        let code := (Char.toUpper c).toNat
        if 0x30 ≤ code ∧ code ≤ 0x5A then some code else none
      | _ => none

/-- A raw keyboard event submitted through `SendInput`. -/
inductive KeyEvent
  | down (vk : Nat)
  | up (vk : Nat)
deriving DecidableEq

/-- The modifier set `{"ctrl", "shift", "alt", "win"}` used by
`send_hotkey` in `windows/input.py`. -/
def hotkeyModifiers : List PyStr := [sCtrl, sShift, sAlt, sWin]

/-- The token-resolution loop of `send_hotkey`: resolve every token in
order, stopping at the first unresolvable one. -/
def resolve_all : List PyStr → Except PyStr (List Nat)
  | [] => Except.ok []
  | t :: ts =>
    match virtual_key t with
    | none => Except.error t
    | some vk =>
      match resolve_all ts with
      | Except.error e => Except.error e
      | Except.ok ks => Except.ok (vk :: ks)

/-- `send_hotkey` from `windows/input.py` (lines 85-115), as a pure
function returning the emitted event trace together with the unsupported
token reported, if any. -/
def send_hotkey (tokens : List PyStr) : List KeyEvent × Option PyStr :=
  let sequence := tokens.map pyLower
  if sequence.isEmpty then ([], none)
  else
    match resolve_all sequence with
    | Except.error tok => ([], some tok)
    | Except.ok key_codes =>
      let pairs := sequence.zip key_codes
      let modifiers := (pairs.filter (fun p => decide (p.1 ∈ hotkeyModifiers))).map Prod.snd
      let main_keys := (pairs.filter (fun p => decide (p.1 ∉ hotkeyModifiers))).map Prod.snd
      let events :=
        if main_keys.isEmpty then
          modifiers.map KeyEvent.down ++ modifiers.reverse.map KeyEvent.up
        else
          modifiers.map KeyEvent.down ++ main_keys.map KeyEvent.down ++
            main_keys.reverse.map KeyEvent.up ++ modifiers.reverse.map KeyEvent.up
      (events, none)

/-- Log of an execution of `send_hotkey` against a fallible `SendInput`:
the events whose submission was attempted, and the virtual keys whose
submission reported failure (each logged as a non-fatal warning). -/
structure SendLog where
  attempted : List KeyEvent
  failures : List Nat
deriving DecidableEq

/-- `_send_key` from `windows/input.py` (lines 79-83): one `SendInput`
call.  The oracle says whether the n-th submission succeeds; a failure is
only logged, the event was attempted either way. -/
def send_key (oracle : Nat → Bool) (log : SendLog) (vk : Nat) (keyup : Bool) : SendLog :=
  let ev := if keyup then KeyEvent.up vk else KeyEvent.down vk
  let ok := oracle log.attempted.length
  ⟨log.attempted ++ [ev], if ok then log.failures else log.failures ++ [vk]⟩

/-- One of the `for vk in ...: _send_key(vk, ...)` loops of `send_hotkey`. -/
def send_keys (oracle : Nat → Bool) (keyup : Bool) (vks : List Nat) (log : SendLog) : SendLog :=
  vks.foldl (fun l vk => send_key oracle l vk keyup) log

/-- `send_hotkey` executed against a fallible `SendInput` (the oracle
gives each submission's result), mirroring `windows/input.py` lines
85-115 step by step. -/
def send_hotkey_exec (oracle : Nat → Bool) (tokens : List PyStr) : SendLog × Option PyStr :=
  let sequence := tokens.map pyLower
  if sequence.isEmpty then (⟨[], []⟩, none)
  else
    match resolve_all sequence with
    | Except.error tok => (⟨[], []⟩, some tok)
    | Except.ok key_codes =>
      let pairs := sequence.zip key_codes
      let modifiers := (pairs.filter (fun p => decide (p.1 ∈ hotkeyModifiers))).map Prod.snd
      let main_keys := (pairs.filter (fun p => decide (p.1 ∉ hotkeyModifiers))).map Prod.snd
      let log0 := send_keys oracle false modifiers ⟨[], []⟩
      if main_keys.isEmpty then
        (send_keys oracle true modifiers.reverse log0, none)
      else
        let log1 := send_keys oracle false main_keys log0
        let log2 := send_keys oracle true main_keys.reverse log1
        (send_keys oracle true modifiers.reverse log2, none)

/-! Audio control from `windows/audio.py`, with explicit resource traces
and fault injection at every platform call. -/

/-- The clamped volume level `max(0.0, min(1.0, percent / 100.0))`
computed at the start of `set_master_volume` and
`set_application_volume` (lines 133 and 246). -/
def clamp_level (percent : ℤ) : ℚ := max 0 (min 1 ((percent : ℚ) / 100))

/-- The resource kinds acquired by the audio operations.  Per-session
resources carry the session index. -/
inductive Res
  | com
  | enumerator
  | device
  | endpoint
  | sessionManager
  | sessionEnum
  | session (i : Nat)
  | sessionControl (i : Nat)
  | simpleVolume (i : Nat)
  | procHandle (i : Nat)
deriving DecidableEq

/-- An acquire or release of a resource, in program order. -/
inductive REvent
  | acq (r : Res)
  | rel (r : Res)
deriving DecidableEq

/-- Faults injectable into `set_master_volume`: each flag makes the
corresponding platform call fail. -/
structure MasterFaults where
  coInit : Bool
  createEnum : Bool
  getDevice : Bool
  activate : Bool
  setVolume : Bool
deriving DecidableEq

/-- `set_master_volume` from `windows/audio.py` (lines 132-155): the
resource trace, the level computed at entry, and whether the operation
succeeded.  A failing `CoInitializeEx` raises inside `__enter__`, so no
resource is acquired; every later failure unwinds through the nested
`try/finally` blocks, releasing innermost-first. -/
def set_master_volume_run (percent : ℤ) (f : MasterFaults) :
    List REvent × ℚ × Bool :=
  let level := clamp_level percent
  if f.coInit then ([], level, false)
  else if f.createEnum then ([REvent.acq Res.com, REvent.rel Res.com], level, false)
  else if f.getDevice then
    ([REvent.acq Res.com, REvent.acq Res.enumerator,
      REvent.rel Res.enumerator, REvent.rel Res.com], level, false)
  else if f.activate then
    ([REvent.acq Res.com, REvent.acq Res.enumerator, REvent.acq Res.device,
      REvent.rel Res.device, REvent.rel Res.enumerator, REvent.rel Res.com], level, false)
  else
    ([REvent.acq Res.com, REvent.acq Res.enumerator, REvent.acq Res.device,
      REvent.acq Res.endpoint, REvent.rel Res.endpoint, REvent.rel Res.device,
      REvent.rel Res.enumerator, REvent.rel Res.com], level, !f.setVolume)

/-- Outcome of `_process_name_from_pid` (lines 172-184): `OpenProcess`
can fail (no handle acquired), `GetModuleFileNameExW` can fail (handle
acquired and closed), or a name is returned. -/
inductive PidLookup
  | openFail
  | nameFail
  | found (name : PyStr)
deriving DecidableEq

/-- The process name produced by a `PidLookup`. -/
def pidName : PidLookup → Option PyStr
  | PidLookup.openFail => none
  | PidLookup.nameFail => none
  | PidLookup.found n => some n

/-- The resource trace of `_process_name_from_pid` for session `i`. -/
def pidTrace (i : Nat) : PidLookup → List REvent
  | PidLookup.openFail => []
  | PidLookup.nameFail => [REvent.acq (Res.procHandle i), REvent.rel (Res.procHandle i)]
  | PidLookup.found _ => [REvent.acq (Res.procHandle i), REvent.rel (Res.procHandle i)]

/-- Faults injectable into the handling of one enumerated session. -/
structure SessionSpec where
  fetchFail : Bool
  qiControlFail : Bool
  getPidFail : Bool
  pid : PidLookup
  qiVolumeFail : Bool
  setVolumeFail : Bool
deriving DecidableEq

/-- Handling of one session by `set_application_volume`: `GetSession`
(inside `_iter_sessions`, lines 158-169) followed by
`_set_session_volume` (lines 215-242).  Result: trace, volumes set
(session index and level), and `some matched` on normal completion or
`none` when an uncaught error aborts the whole operation.  A failing
`QueryInterface` for the session control is caught and yields `False`; a
failing `GetProcessId`, volume `QueryInterface` or `SetMasterVolume`
propagates after the `finally` blocks release everything acquired. -/
def app_session_step (hint : PyStr) (level : ℚ) (i : Nat) (s : SessionSpec) :
    List REvent × List (Nat × ℚ) × Option Bool :=
  if s.fetchFail then ([], [], none)
  else if s.qiControlFail then
    ([REvent.acq (Res.session i), REvent.rel (Res.session i)], [], some false)
  else if s.getPidFail then
    ([REvent.acq (Res.session i), REvent.acq (Res.sessionControl i),
      REvent.rel (Res.sessionControl i), REvent.rel (Res.session i)], [], none)
  else
    let pre := [REvent.acq (Res.session i), REvent.acq (Res.sessionControl i)] ++
      pidTrace i s.pid
    if match_process hint (pidName s.pid) then
      if s.qiVolumeFail then
        (pre ++ [REvent.rel (Res.sessionControl i), REvent.rel (Res.session i)], [], none)
      else if s.setVolumeFail then
        (pre ++ [REvent.acq (Res.simpleVolume i), REvent.rel (Res.simpleVolume i),
          REvent.rel (Res.sessionControl i), REvent.rel (Res.session i)], [], none)
      else
        (pre ++ [REvent.acq (Res.simpleVolume i), REvent.rel (Res.simpleVolume i),
          REvent.rel (Res.sessionControl i), REvent.rel (Res.session i)],
          [(i, level)], some true)
    else
      (pre ++ [REvent.rel (Res.sessionControl i), REvent.rel (Res.session i)], [], some false)

/-- The session loop of `set_application_volume` (lines 265-267), from
session index `i`: aborts at the first session whose handling raises,
otherwise accumulates whether any session matched. -/
def app_sessions_run (hint : PyStr) (level : ℚ) :
    Nat → List SessionSpec → List REvent × List (Nat × ℚ) × Option Bool
  | _, [] => ([], [], some false)
  | i, s :: rest =>
    match app_session_step hint level i s with
    | (tr, vols, none) => (tr, vols, none)
    | (tr, vols, some b) =>
      match app_sessions_run hint level (i + 1) rest with
      | (tr2, vols2, r2) =>
        (tr ++ tr2, vols ++ vols2,
          match r2 with
          | none => none
          | some b2 => some (b || b2))

/-- Faults injectable into `set_application_volume` and
`list_audio_sessions`: the shared outer platform calls plus one
`SessionSpec` per enumerated session. -/
structure AppFaults where
  coInit : Bool
  createEnum : Bool
  getDevice : Bool
  activate : Bool
  getSessionEnum : Bool
  getCount : Bool
  sessions : List SessionSpec
deriving DecidableEq

/-- The reverse-order release of the outer resources of the session-based
operations. -/
def outerRelease : List REvent :=
  [REvent.rel Res.sessionEnum, REvent.rel Res.sessionManager, REvent.rel Res.device,
   REvent.rel Res.enumerator, REvent.rel Res.com]

/-- The acquisition of the outer resources of the session-based
operations, in program order. -/
def outerAcquire : List REvent :=
  [REvent.acq Res.com, REvent.acq Res.enumerator, REvent.acq Res.device,
   REvent.acq Res.sessionManager, REvent.acq Res.sessionEnum]

/-- `set_application_volume` from `windows/audio.py` (lines 245-276):
the resource trace, the per-session volume writes, and `some matched` on
normal completion or `none` when a platform error propagates. -/
def set_application_volume_run (hint : PyStr) (percent : ℤ) (f : AppFaults) :
    List REvent × List (Nat × ℚ) × Option Bool :=
  let level := clamp_level percent
  if f.coInit then ([], [], none)
  else if f.createEnum then ([REvent.acq Res.com, REvent.rel Res.com], [], none)
  else if f.getDevice then
    ([REvent.acq Res.com, REvent.acq Res.enumerator,
      REvent.rel Res.enumerator, REvent.rel Res.com], [], none)
  else if f.activate then
    ([REvent.acq Res.com, REvent.acq Res.enumerator, REvent.acq Res.device,
      REvent.rel Res.device, REvent.rel Res.enumerator, REvent.rel Res.com], [], none)
  else if f.getSessionEnum then
    ([REvent.acq Res.com, REvent.acq Res.enumerator, REvent.acq Res.device,
      REvent.acq Res.sessionManager, REvent.rel Res.sessionManager,
      REvent.rel Res.device, REvent.rel Res.enumerator, REvent.rel Res.com], [], none)
  else if f.getCount then (outerAcquire ++ outerRelease, [], none)
  else
    match app_sessions_run hint level 0 f.sessions with
    | (tr, vols, r) => (outerAcquire ++ tr ++ outerRelease, vols, r)

/-- Handling of one session by `list_audio_sessions`: `GetSession`
followed by `_session_process_name` (lines 201-212).  Result: trace, the
resolved name (if any), and whether the loop may continue (`false` when
an uncaught error aborts the operation). -/
def list_session_step (i : Nat) (s : SessionSpec) :
    List REvent × Option PyStr × Bool :=
  if s.fetchFail then ([], none, false)
  else if s.qiControlFail then
    ([REvent.acq (Res.session i), REvent.rel (Res.session i)], none, true)
  else if s.getPidFail then
    ([REvent.acq (Res.session i), REvent.acq (Res.sessionControl i),
      REvent.rel (Res.sessionControl i), REvent.rel (Res.session i)], none, false)
  else
    ([REvent.acq (Res.session i), REvent.acq (Res.sessionControl i)] ++
      pidTrace i s.pid ++
      [REvent.rel (Res.sessionControl i), REvent.rel (Res.session i)],
      pidName s.pid, true)

/-- The session loop of `list_audio_sessions` (lines 301-304), from
session index `i`: collects each resolved name in enumeration order,
aborting at the first session whose handling raises. -/
def list_sessions_run : Nat → List SessionSpec → List REvent × List (Option PyStr) × Bool
  | _, [] => ([], [], true)
  | i, s :: rest =>
    match list_session_step i s with
    | (tr, _, false) => (tr, [], false)
    | (tr, n, true) =>
      match list_sessions_run (i + 1) rest with
      | (tr2, ns, ok) => (tr ++ tr2, n :: ns, ok)

/-- One step of the `sessions.add(process_name)` accumulation (guarded
by `if process_name:`). -/
def collectStep (acc : List PyStr) (n? : Option PyStr) : List PyStr :=
  match n? with
  | some n => if n.isEmpty then acc else pyUniqueStep acc n
  | none => acc

/-- The `sessions.add(process_name)` accumulation: a Python `set`,
modelled as first-occurrence de-duplication in enumeration order. -/
def collect_names (xs : List (Option PyStr)) : List PyStr :=
  xs.foldl collectStep []

/-- Total lexicographic comparison of character lists by code point,
as Python string `<=`. -/
def lexLe : List Char → List Char → Bool
  | [], _ => true
  | _ :: _, [] => false
  | a :: as, b :: bs =>
    if a.toNat < b.toNat then true
    else if b.toNat < a.toNat then false
    else lexLe as bs

/-- The sort key comparison of `sorted(sessions, key=str.casefold)`
(`str.casefold` coincides with lower-casing on ASCII). -/
def casefoldLe (a b : PyStr) : Bool := lexLe (pyLower a) (pyLower b)

/-- `sorted(..., key=str.casefold)`, modelled as an insertion sort under
`casefoldLe`. -/
def sortByCasefold (xs : List PyStr) : List PyStr :=
  List.insertionSort (fun a b => casefoldLe a b = true) xs

/-- `list_audio_sessions` from `windows/audio.py` (lines 279-314): the
resource trace and, on normal completion, the sorted list of collected
names (`none` when a platform error propagates). -/
def list_audio_sessions_run (f : AppFaults) : List REvent × Option (List PyStr) :=
  if f.coInit then ([], none)
  else if f.createEnum then ([REvent.acq Res.com, REvent.rel Res.com], none)
  else if f.getDevice then
    ([REvent.acq Res.com, REvent.acq Res.enumerator,
      REvent.rel Res.enumerator, REvent.rel Res.com], none)
  else if f.activate then
    ([REvent.acq Res.com, REvent.acq Res.enumerator, REvent.acq Res.device,
      REvent.rel Res.device, REvent.rel Res.enumerator, REvent.rel Res.com], none)
  else if f.getSessionEnum then
    ([REvent.acq Res.com, REvent.acq Res.enumerator, REvent.acq Res.device,
      REvent.acq Res.sessionManager, REvent.rel Res.sessionManager,
      REvent.rel Res.device, REvent.rel Res.enumerator, REvent.rel Res.com], none)
  else if f.getCount then (outerAcquire ++ outerRelease, none)
  else
    match list_sessions_run 0 f.sessions with
    | (tr, _, false) => (outerAcquire ++ tr ++ outerRelease, none)
    | (tr, ns, true) =>
      (outerAcquire ++ tr ++ outerRelease, some (sortByCasefold (collect_names ns)))

/-- `available_audio_sessions` from `actions/volume.py` (lines 54-64):
returns `[]` when the Windows audio backend could not be loaded
(`backend = none`), and converts an `OSError` from the backend into `[]`. -/
def available_audio_sessions (backend : Option AppFaults) : List REvent × List PyStr :=
  match backend with
  | none => ([], [])
  | some f =>
    match list_audio_sessions_run f with
    | (tr, some out) => (tr, out)
    | (tr, none) => (tr, [])

/-- Stack interpretation of a resource trace: an acquire pushes, a
release must match the most recently acquired unreleased resource.
`runStack [] t = some []` says `t` is well-nested: every resource is
released exactly as often as acquired, innermost-first. -/
def runStack : List Res → List REvent → Option (List Res)
  | stack, [] => some stack
  | stack, REvent.acq r :: rest => runStack (r :: stack) rest
  | stack, REvent.rel r :: rest =>
    match stack with
    | [] => none
    | r' :: s => if r = r' then runStack s rest else none

/-- Number of acquisitions of resource `r` in a trace. -/
def acqCount (r : Res) (t : List REvent) : Nat :=
  (t.filter (fun e => decide (e = REvent.acq r))).length

/-- Number of releases of resource `r` in a trace. -/
def relCount (r : Res) (t : List REvent) : Nat :=
  (t.filter (fun e => decide (e = REvent.rel r))).length

/-- Number of occurrences of resource `r` on a stack. -/
def resCount (r : Res) (s : List Res) : Nat :=
  (s.filter (fun x => decide (x = r))).length

/-- All platform calls of one session's handling succeed. -/
def sessionOk (s : SessionSpec) : Bool :=
  !s.fetchFail && !s.qiControlFail && !s.getPidFail && !s.qiVolumeFail && !s.setVolumeFail

/-- All platform calls of a session-based operation succeed. -/
def appOk (f : AppFaults) : Bool :=
  !f.coInit && !f.createEnum && !f.getDevice && !f.activate &&
    !f.getSessionEnum && !f.getCount && f.sessions.all sessionOk

/-- A resolved, non-empty process name (Python truthiness of
`_process_name_from_pid`'s result). -/
def nonemptyName : Option PyStr → Bool
  | some n => !n.isEmpty
  | none => false

/-! Helper lemmas about the string primitives. -/

theorem startsWithList_iff (n : PyStr) : ∀ h : PyStr,
    startsWithList n h = true ↔ ∃ u, h = n ++ u := by
  induction n with
  | nil =>
      intro h
      simp [startsWithList]
  | cons a as ih =>
      intro h
      cases h with
      | nil =>
          simp [startsWithList]
      | cons b bs =>
          by_cases hab : a = b
          · subst hab
            simp [startsWithList, ih bs]
          · simp only [startsWithList, if_neg hab]
            constructor
            · intro hfalse
              simp at hfalse
            · rintro ⟨u, hu⟩
              injection hu with h1 _
              exact (hab h1.symm).elim

theorem containsList_iff (n : PyStr) : ∀ h : PyStr,
    containsList n h = true ↔ ∃ pre post, h = pre ++ n ++ post := by
  intro h
  induction h with
  | nil =>
      constructor
      · intro hc
        refine ⟨[], [], ?_⟩
        simp [containsList, List.isEmpty_iff] at hc
        simp [hc]
      · rintro ⟨pre, post, hp⟩
        have h0 := List.append_eq_nil.mp hp.symm
        have h1 := List.append_eq_nil.mp h0.1
        simp [containsList, List.isEmpty_iff, h1.2]
  | cons c rest ih =>
      constructor
      · intro hc
        rcases Bool.or_eq_true _ _ |>.mp (by simpa [containsList] using hc) with hs | hr
        · rcases (startsWithList_iff n (c :: rest)).mp hs with ⟨u, hu⟩
          exact ⟨[], u, by simp [hu]⟩
        · rcases ih.mp hr with ⟨pre, post, hp⟩
          exact ⟨c :: pre, post, by simp [hp]⟩
      · rintro ⟨pre, post, hp⟩
        cases pre with
        | nil =>
            have : startsWithList n (c :: rest) = true := by
              refine (startsWithList_iff n (c :: rest)).mpr ⟨post, ?_⟩
              simpa using hp
            simp [containsList, this]
        | cons p ps =>
            have hp' : c :: rest = p :: (ps ++ n ++ post) := by simpa using hp
            injection hp' with h1 h2
            have : containsList n rest = true := ih.mpr ⟨ps, post, h2⟩
            simp [containsList, this]

theorem endsWithList_iff (s h : PyStr) :
    endsWithList s h = true ↔ ∃ v, h = v ++ s := by
  rw [endsWithList, startsWithList_iff]
  constructor
  · rintro ⟨u, hu⟩
    refine ⟨u.reverse, ?_⟩
    have := congrArg List.reverse hu
    simpa using this
  · rintro ⟨v, hv⟩
    exact ⟨v.reverse, by simp [hv]⟩

theorem strip_iff (a b : PyStr) :
    (endsWithList exeSuffix b = true ∧ a = b.take (b.length - 4)) ↔
      b = a ++ exeSuffix := by
  constructor
  · rintro ⟨he, ha⟩
    obtain ⟨v, hv⟩ := (endsWithList_iff exeSuffix b).mp he
    subst hv
    have hlen : (v ++ exeSuffix).length - 4 = v.length := by simp [exeSuffix]
    rw [hlen, List.take_left] at ha
    rw [ha]
  · intro hb
    subst hb
    refine ⟨(endsWithList_iff _ _).mpr ⟨a, rfl⟩, ?_⟩
    have hlen : (a ++ exeSuffix).length - 4 = a.length := by simp [exeSuffix]
    rw [hlen, List.take_left]

theorem match_process_iff (t p : PyStr) (hp : p ≠ []) :
    match_process t (some p) = true ↔
      (pyLower t = pyLower p ∨ pyLower p = pyLower t ++ exeSuffix ∨
       pyLower t = pyLower p ++ exeSuffix ∨
       ∃ pre post, pyLower p = pre ++ pyLower t ++ post) := by
  have hc1 : (endsWithList exeSuffix (pyLower p) &&
      decide (pyLower t = (pyLower p).take ((pyLower p).length - 4))) = true ↔
      pyLower p = pyLower t ++ exeSuffix := by
    simp only [Bool.and_eq_true, decide_eq_true_eq]
    exact strip_iff (pyLower t) (pyLower p)
  have hc2 : (endsWithList exeSuffix (pyLower t) &&
      decide ((pyLower t).take ((pyLower t).length - 4) = pyLower p)) = true ↔
      pyLower t = pyLower p ++ exeSuffix := by
    simp only [Bool.and_eq_true, decide_eq_true_eq]
    constructor
    · rintro ⟨he, hq⟩
      exact (strip_iff (pyLower p) (pyLower t)).mp ⟨he, hq.symm⟩
    · intro h
      obtain ⟨he, hq⟩ := (strip_iff (pyLower p) (pyLower t)).mpr h
      exact ⟨he, hq.symm⟩
  simp only [match_process]
  rw [if_neg hp]
  by_cases h1 : pyLower t = pyLower p
  · simp [h1]
  · rw [if_neg h1]
    by_cases h2 : pyLower p = pyLower t ++ exeSuffix
    · rw [if_pos (hc1.mpr h2)]
      simp [h2]
    · rw [if_neg (fun hx => h2 (hc1.mp hx))]
      by_cases h3 : pyLower t = pyLower p ++ exeSuffix
      · rw [if_pos (hc2.mpr h3)]
        simp [h3]
      · rw [if_neg (fun hx => h3 (hc2.mp hx))]
        rw [containsList_iff]
        simp [h1, h2, h3]

theorem pyUnique_foldl {α : Type} [DecidableEq α] (xs : List α) : ∀ acc : List α,
    ∃ s, xs.foldl pyUniqueStep acc = acc ++ s ∧ s.Sublist xs ∧
      (∀ x ∈ s, x ∉ acc) ∧ s.Nodup ∧ (∀ x, x ∈ acc ++ s ↔ x ∈ acc ∨ x ∈ xs) := by
  induction xs with
  | nil =>
      intro acc
      exact ⟨[], by simp, by simp, by simp, by simp, by simp⟩
  | cons t ts ih =>
      intro acc
      by_cases ht : t ∈ acc
      · obtain ⟨s, h1, h2, h3, h4, h5⟩ := ih acc
        refine ⟨s, ?_, h2.cons t, h3, h4, ?_⟩
        · simpa [pyUniqueStep, ht] using h1
        · intro x
          rw [h5]
          constructor
          · rintro (hx | hx)
            · exact Or.inl hx
            · exact Or.inr (List.mem_cons_of_mem t hx)
          · rintro (hx | hx)
            · exact Or.inl hx
            · rcases List.mem_cons.mp hx with hx | hx
              · exact Or.inl (hx ▸ ht)
              · exact Or.inr hx
      · obtain ⟨s, h1, h2, h3, h4, h5⟩ := ih (acc ++ [t])
        refine ⟨t :: s, ?_, h2.cons₂ t, ?_, ?_, ?_⟩
        · have : List.foldl pyUniqueStep acc (t :: ts) =
              List.foldl pyUniqueStep (acc ++ [t]) ts := by
            simp [pyUniqueStep, ht]
          rw [this, h1, List.append_assoc]
          rfl
        · intro x hx
          rcases List.mem_cons.mp hx with hx | hx
          · exact hx ▸ ht
          · intro hxa
            exact h3 x hx (List.mem_append.mpr (Or.inl hxa))
        · refine List.nodup_cons.mpr ⟨?_, h4⟩
          intro hts
          exact h3 t hts (List.mem_append.mpr (Or.inr (List.mem_singleton.mpr rfl)))
        · intro x
          constructor
          · intro hx
            rcases List.mem_append.mp hx with hx | hx
            · exact Or.inl hx
            · rcases List.mem_cons.mp hx with hx | hx
              · exact Or.inr (hx ▸ List.mem_cons_self t ts)
              · have := (h5 x).mp (List.mem_append.mpr (Or.inr hx))
                rcases this with hx2 | hx2
                · rcases List.mem_append.mp hx2 with hx3 | hx3
                  · exact Or.inl hx3
                  · exact Or.inr (List.mem_singleton.mp hx3 ▸ List.mem_cons_self t ts)
                · exact Or.inr (List.mem_cons_of_mem t hx2)
          · intro hx
            rcases hx with hx | hx
            · exact List.mem_append.mpr (Or.inl hx)
            · rcases List.mem_cons.mp hx with hx | hx
              · exact List.mem_append.mpr (Or.inr (hx ▸ List.mem_cons_self t s))
              · have := (h5 x).mpr (Or.inr hx)
                rcases List.mem_append.mp this with hx2 | hx2
                · rcases List.mem_append.mp hx2 with hx3 | hx3
                  · exact List.mem_append.mpr (Or.inl hx3)
                  · exact List.mem_append.mpr
                      (Or.inr (List.mem_singleton.mp hx3 ▸ List.mem_cons_self t s))
                · exact List.mem_append.mpr (Or.inr (List.mem_cons_of_mem t hx2))

theorem resolve_all_error_spec : ∀ (ts : List PyStr) (e : PyStr),
    resolve_all ts = Except.error e → virtual_key e = none ∧ e ∈ ts := by
  intro ts
  induction ts with
  | nil =>
      intro e h
      simp [resolve_all] at h
  | cons t ts ih =>
      intro e h
      unfold resolve_all at h
      cases hv : virtual_key t with
      | none =>
          rw [hv] at h
          injection h with h1
          subst h1
          exact ⟨hv, List.mem_cons_self t ts⟩
      | some vk =>
          rw [hv] at h
          cases hr : resolve_all ts with
          | error e2 =>
              rw [hr] at h
              injection h with h1
              obtain ⟨hv2, hm2⟩ := ih e2 hr
              exact ⟨h1 ▸ hv2, h1 ▸ List.mem_cons_of_mem t hm2⟩
          | ok ks =>
              rw [hr] at h
              exact absurd h (by simp)

theorem resolve_all_ok_isSome : ∀ (ts : List PyStr) (ks : List Nat),
    resolve_all ts = Except.ok ks → ∀ t ∈ ts, (virtual_key t).isSome := by
  intro ts
  induction ts with
  | nil =>
      intro ks _ t ht
      simp at ht
  | cons t0 ts ih =>
      intro ks h t ht
      unfold resolve_all at h
      cases hv : virtual_key t0 with
      | none =>
          rw [hv] at h
          exact absurd h (by simp)
      | some vk =>
          rw [hv] at h
          cases hr : resolve_all ts with
          | error e2 =>
              rw [hr] at h
              exact absurd h (by simp)
          | ok ks2 =>
              rcases List.mem_cons.mp ht with h1 | h1
              · subst h1
                simp [hv]
              · exact ih ks2 hr t h1

theorem resolve_all_exists_error (ts : List PyStr)
    (h : ∃ t ∈ ts, virtual_key t = none) :
    ∃ e, resolve_all ts = Except.error e := by
  cases hr : resolve_all ts with
  | error e => exact ⟨e, rfl⟩
  | ok ks =>
      obtain ⟨t, ht, hv⟩ := h
      have := resolve_all_ok_isSome ts ks hr t ht
      rw [hv] at this
      simp at this

theorem resolve_all_zip_filter : ∀ (ts : List PyStr) (ks : List Nat),
    resolve_all ts = Except.ok ks → ∀ P : PyStr → Bool,
      ((ts.zip ks).filter (fun p => P p.1)).map Prod.snd =
        (ts.filter P).filterMap virtual_key := by
  intro ts
  induction ts with
  | nil =>
      intro ks h P
      unfold resolve_all at h
      injection h with h1
      subst h1
      simp
  | cons t ts ih =>
      intro ks h P
      unfold resolve_all at h
      cases hv : virtual_key t with
      | none =>
          rw [hv] at h
          exact absurd h (by simp)
      | some vk =>
          rw [hv] at h
          cases hr : resolve_all ts with
          | error e2 =>
              rw [hr] at h
              exact absurd h (by simp)
          | ok ks2 =>
              rw [hr] at h
              injection h with h1
              subst h1
              cases hP : P t with
              | true =>
                  simp [List.zip_cons_cons, List.filter_cons, hP, List.filterMap_cons, hv,
                    ih ks2 hr P]
              | false =>
                  simp [List.zip_cons_cons, List.filter_cons, hP, List.filterMap_cons,
                    ih ks2 hr P]

theorem send_keys_attempted (oracle : Nat → Bool) (keyup : Bool) :
    ∀ (vks : List Nat) (log : SendLog),
      (send_keys oracle keyup vks log).attempted =
        log.attempted ++
          vks.map (fun vk => if keyup then KeyEvent.up vk else KeyEvent.down vk) := by
  intro vks
  induction vks with
  | nil =>
      intro log
      simp [send_keys]
  | cons vk vks ih =>
      intro log
      have hstep : send_keys oracle keyup (vk :: vks) log =
          send_keys oracle keyup vks (send_key oracle log vk keyup) := by
        simp [send_keys]
      rw [hstep, ih]
      simp [send_key]

theorem runStack_append : ∀ (xs ys : List REvent) (s : List Res),
    runStack s (xs ++ ys) = (runStack s xs).bind (fun s2 => runStack s2 ys) := by
  intro xs
  induction xs with
  | nil =>
      intro ys s
      simp [runStack]
  | cons e xs ih =>
      intro ys s
      cases e with
      | acq r =>
          simp [runStack, ih]
      | rel r =>
          cases s with
          | nil => simp [runStack]
          | cons r2 s2 =>
              by_cases h : r = r2 <;> simp [runStack, h, ih]

theorem runStack_extend : ∀ (t : List REvent) (s1 s2 s : List Res),
    runStack s1 t = some s2 → runStack (s1 ++ s) t = some (s2 ++ s) := by
  intro t
  induction t with
  | nil =>
      intro s1 s2 s h
      simp [runStack] at h ⊢
      rw [h]
  | cons e t ih =>
      intro s1 s2 s h
      cases e with
      | acq r =>
          simp only [runStack] at h ⊢
          exact ih (r :: s1) s2 s h
      | rel r =>
          cases s1 with
          | nil => simp [runStack] at h
          | cons r2 s1b =>
              have hred : ∀ (st : List Res) (r3 : Res),
                  runStack (r3 :: st) (REvent.rel r :: t) =
                    if r = r3 then runStack st t else none := fun st r3 => rfl
              rw [hred] at h
              rw [List.cons_append, hred]
              by_cases hr : r = r2
              · rw [if_pos hr] at h ⊢
                exact ih s1b s2 s h
              · rw [if_neg hr] at h
                exact absurd h (by simp)

theorem runStack_self (t : List REvent) (s : List Res)
    (h : runStack [] t = some []) : runStack s t = some s := by
  have := runStack_extend t [] [] s h
  simpa using this

theorem acqCount_cons_acq (r r0 : Res) (t : List REvent) :
    acqCount r (REvent.acq r0 :: t) = (if r0 = r then 1 else 0) + acqCount r t := by
  by_cases h : r0 = r <;> simp [acqCount, List.filter_cons, h] <;> omega

theorem acqCount_cons_rel (r r0 : Res) (t : List REvent) :
    acqCount r (REvent.rel r0 :: t) = acqCount r t := by
  simp [acqCount, List.filter_cons]

theorem relCount_cons_acq (r r0 : Res) (t : List REvent) :
    relCount r (REvent.acq r0 :: t) = relCount r t := by
  simp [relCount, List.filter_cons]

theorem relCount_cons_rel (r r0 : Res) (t : List REvent) :
    relCount r (REvent.rel r0 :: t) = (if r0 = r then 1 else 0) + relCount r t := by
  by_cases h : r0 = r <;> simp [relCount, List.filter_cons, h] <;> omega

theorem resCount_cons (r r0 : Res) (s : List Res) :
    resCount r (r0 :: s) = (if r0 = r then 1 else 0) + resCount r s := by
  by_cases h : r0 = r <;> simp [resCount, List.filter_cons, h] <;> omega

theorem runStack_counts (r : Res) : ∀ (t : List REvent) (s s2 : List Res),
    runStack s t = some s2 →
    acqCount r t + resCount r s = relCount r t + resCount r s2 := by
  intro t
  induction t with
  | nil =>
      intro s s2 h
      simp [runStack] at h
      subst h
      simp [acqCount, relCount]
  | cons e t ih =>
      intro s s2 h
      cases e with
      | acq r0 =>
          have h2 : runStack (r0 :: s) t = some s2 := h
          have hih := ih (r0 :: s) s2 h2
          rw [resCount_cons] at hih
          rw [acqCount_cons_acq, relCount_cons_acq]
          by_cases hr : r0 = r <;> simp [hr] at hih ⊢ <;> omega
      | rel r0 =>
          cases s with
          | nil => simp [runStack] at h
          | cons r2 s2b =>
              have hred : runStack (r2 :: s2b) (REvent.rel r0 :: t) =
                  if r0 = r2 then runStack s2b t else none := rfl
              rw [hred] at h
              by_cases h0 : r0 = r2
              · rw [if_pos h0] at h
                have hih := ih s2b s2 h
                rw [acqCount_cons_rel, relCount_cons_rel, resCount_cons, ← h0]
                by_cases hr : r0 = r <;> simp [hr] at hih ⊢ <;> omega
              · rw [if_neg h0] at h
                exact absurd h (by simp)

theorem balanced_counts (t : List REvent) (h : runStack [] t = some []) (r : Res) :
    acqCount r t = relCount r t := by
  have := runStack_counts r t [] [] h
  simpa [resCount] using this

theorem master_balanced (percent : ℤ) (f : MasterFaults) :
    runStack [] (set_master_volume_run percent f).1 = some [] := by
  rcases f with ⟨c, e, d, a, s⟩
  cases c <;> cases e <;> cases d <;> cases a <;> rfl

theorem app_session_step_balanced (hint : PyStr) (level : ℚ) (i : Nat) (s : SessionSpec) :
    runStack [] (app_session_step hint level i s).1 = some [] := by
  unfold app_session_step
  by_cases h1 : s.fetchFail = true
  · rw [if_pos h1]
    rfl
  · rw [if_neg h1]
    by_cases h2 : s.qiControlFail = true
    · rw [if_pos h2]
      simp [runStack]
    · rw [if_neg h2]
      by_cases h3 : s.getPidFail = true
      · rw [if_pos h3]
        simp [runStack]
      · rw [if_neg h3]
        by_cases hm : match_process hint (pidName s.pid) = true
        · rw [if_pos hm]
          by_cases h4 : s.qiVolumeFail = true
          · rw [if_pos h4]
            cases hp : s.pid <;> simp [pidTrace, runStack]
          · rw [if_neg h4]
            by_cases h5 : s.setVolumeFail = true
            · rw [if_pos h5]
              cases hp : s.pid <;> simp [pidTrace, runStack]
            · rw [if_neg h5]
              cases hp : s.pid <;> simp [pidTrace, runStack]
        · rw [if_neg hm]
          cases hp : s.pid <;> simp [pidTrace, runStack]

theorem app_sessions_run_balanced (hint : PyStr) (level : ℚ) :
    ∀ (specs : List SessionSpec) (i : Nat),
      runStack [] (app_sessions_run hint level i specs).1 = some [] := by
  intro specs
  induction specs with
  | nil =>
      intro i
      rfl
  | cons s rest ih =>
      intro i
      rcases hstep : app_session_step hint level i s with ⟨tr, vols, r⟩
      have htr : runStack [] tr = some [] := by
        have h0 := app_session_step_balanced hint level i s
        rw [hstep] at h0
        exact h0
      cases r with
      | none =>
          unfold app_sessions_run
          rw [hstep]
          exact htr
      | some b =>
          rcases hrec : app_sessions_run hint level (i + 1) rest with ⟨tr2, vols2, r2⟩
          have htr2 : runStack [] tr2 = some [] := by
            have h0 := ih (i + 1)
            rw [hrec] at h0
            exact h0
          unfold app_sessions_run
          rw [hstep, hrec]
          show runStack [] (tr ++ tr2) = some []
          rw [runStack_append, htr]
          simpa using htr2

theorem app_balanced (hint : PyStr) (percent : ℤ) (f : AppFaults) :
    runStack [] (set_application_volume_run hint percent f).1 = some [] := by
  simp only [set_application_volume_run]
  by_cases h1 : f.coInit = true
  · rw [if_pos h1]
    rfl
  · rw [if_neg h1]
    by_cases h2 : f.createEnum = true
    · rw [if_pos h2]
      rfl
    · rw [if_neg h2]
      by_cases h3 : f.getDevice = true
      · rw [if_pos h3]
        rfl
      · rw [if_neg h3]
        by_cases h4 : f.activate = true
        · rw [if_pos h4]
          rfl
        · rw [if_neg h4]
          by_cases h5 : f.getSessionEnum = true
          · rw [if_pos h5]
            rfl
          · rw [if_neg h5]
            by_cases h6 : f.getCount = true
            · rw [if_pos h6]
              rfl
            · rw [if_neg h6]
              rcases hrun : app_sessions_run hint (clamp_level percent) 0 f.sessions
                with ⟨tr, vols, r⟩
              show runStack [] (outerAcquire ++ tr ++ outerRelease) = some []
              have htr : runStack [] tr = some [] := by
                have h0 := app_sessions_run_balanced hint (clamp_level percent) f.sessions 0
                rw [hrun] at h0
                exact h0
              rw [runStack_append, runStack_append]
              have hA : runStack [] outerAcquire =
                  some [Res.sessionEnum, Res.sessionManager, Res.device,
                    Res.enumerator, Res.com] := rfl
              rw [hA]
              simp only [Option.some_bind]
              rw [runStack_self tr _ htr]
              simp only [Option.some_bind]
              rfl

theorem list_session_step_balanced (i : Nat) (s : SessionSpec) :
    runStack [] (list_session_step i s).1 = some [] := by
  unfold list_session_step
  by_cases h1 : s.fetchFail = true
  · rw [if_pos h1]
    rfl
  · rw [if_neg h1]
    by_cases h2 : s.qiControlFail = true
    · rw [if_pos h2]
      simp [runStack]
    · rw [if_neg h2]
      by_cases h3 : s.getPidFail = true
      · rw [if_pos h3]
        simp [runStack]
      · rw [if_neg h3]
        cases hp : s.pid <;> simp [pidTrace, runStack]

theorem list_sessions_run_balanced :
    ∀ (specs : List SessionSpec) (i : Nat),
      runStack [] (list_sessions_run i specs).1 = some [] := by
  intro specs
  induction specs with
  | nil =>
      intro i
      rfl
  | cons s rest ih =>
      intro i
      rcases hstep : list_session_step i s with ⟨tr, n, ok⟩
      have htr : runStack [] tr = some [] := by
        have h0 := list_session_step_balanced i s
        rw [hstep] at h0
        exact h0
      cases ok with
      | false =>
          unfold list_sessions_run
          rw [hstep]
          exact htr
      | true =>
          rcases hrec : list_sessions_run (i + 1) rest with ⟨tr2, ns, ok2⟩
          have htr2 : runStack [] tr2 = some [] := by
            have h0 := ih (i + 1)
            rw [hrec] at h0
            exact h0
          unfold list_sessions_run
          rw [hstep, hrec]
          show runStack [] (tr ++ tr2) = some []
          rw [runStack_append, htr]
          simpa using htr2

theorem list_balanced (f : AppFaults) :
    runStack [] (list_audio_sessions_run f).1 = some [] := by
  unfold list_audio_sessions_run
  by_cases h1 : f.coInit = true
  · rw [if_pos h1]
    rfl
  · rw [if_neg h1]
    by_cases h2 : f.createEnum = true
    · rw [if_pos h2]
      rfl
    · rw [if_neg h2]
      by_cases h3 : f.getDevice = true
      · rw [if_pos h3]
        rfl
      · rw [if_neg h3]
        by_cases h4 : f.activate = true
        · rw [if_pos h4]
          rfl
        · rw [if_neg h4]
          by_cases h5 : f.getSessionEnum = true
          · rw [if_pos h5]
            rfl
          · rw [if_neg h5]
            by_cases h6 : f.getCount = true
            · rw [if_pos h6]
              rfl
            · rw [if_neg h6]
              rcases hrun : list_sessions_run 0 f.sessions with ⟨tr, ns, ok⟩
              have htr : runStack [] tr = some [] := by
                have h0 := list_sessions_run_balanced f.sessions 0
                rw [hrun] at h0
                exact h0
              have hgoal : ∀ (t2 : List REvent), runStack [] t2 = some [] →
                  runStack [] (outerAcquire ++ t2 ++ outerRelease) = some [] := by
                intro t2 ht2
                rw [runStack_append, runStack_append]
                have hA : runStack [] outerAcquire =
                    some [Res.sessionEnum, Res.sessionManager, Res.device,
                      Res.enumerator, Res.com] := rfl
                rw [hA]
                simp only [Option.some_bind]
                rw [runStack_self t2 _ ht2]
                simp only [Option.some_bind]
                rfl
              cases ok with
              | false => exact hgoal tr htr
              | true => exact hgoal tr htr

theorem app_session_step_ok (hint : PyStr) (level : ℚ) (i : Nat) (s : SessionSpec)
    (h : sessionOk s = true) :
    (app_session_step hint level i s).2.1 =
      (if match_process hint (pidName s.pid) then [(i, level)] else []) ∧
    (app_session_step hint level i s).2.2 =
      some (match_process hint (pidName s.pid)) := by
  simp only [sessionOk, Bool.and_eq_true, Bool.not_eq_true'] at h
  obtain ⟨⟨⟨⟨h1, h2⟩, h3⟩, h4⟩, h5⟩ := h
  simp only [app_session_step, h1, h2, h3, h4, h5, Bool.false_eq_true, if_false]
  cases hm : match_process hint (pidName s.pid) <;> simp [hm]

theorem app_sessions_run_ok (hint : PyStr) (level : ℚ) :
    ∀ (specs : List SessionSpec) (i : Nat), (∀ s ∈ specs, sessionOk s = true) →
      (app_sessions_run hint level i specs).2.2 =
        some (specs.any (fun s => match_process hint (pidName s.pid))) ∧
      (app_sessions_run hint level i specs).2.1 =
        ((List.enumFrom i specs).filter
          (fun p => match_process hint (pidName p.2.pid))).map (fun p => (p.1, level)) := by
  intro specs
  induction specs with
  | nil =>
      intro i _
      constructor <;> rfl
  | cons s rest ih =>
      intro i hok
      have hs : sessionOk s = true := hok s (List.mem_cons_self s rest)
      have hrest : ∀ x ∈ rest, sessionOk x = true :=
        fun x hx => hok x (List.mem_cons_of_mem s hx)
      rcases hstep : app_session_step hint level i s with ⟨tr, vols, r⟩
      obtain ⟨hvols, hr⟩ := app_session_step_ok hint level i s hs
      rw [hstep] at hvols hr
      simp only at hvols hr
      rcases hrec : app_sessions_run hint level (i + 1) rest with ⟨tr2, vols2, r2⟩
      obtain ⟨hr2, hvols2⟩ := ih (i + 1) hrest
      rw [hrec] at hr2 hvols2
      simp only at hr2 hvols2
      subst hr hr2
      unfold app_sessions_run
      rw [hstep, hrec]
      constructor
      · show some _ = _
        simp [List.any_cons]
      · show vols ++ vols2 = _
        rw [hvols, hvols2]
        rw [List.enumFrom_cons]
        cases hm : match_process hint (pidName s.pid) <;>
          simp [List.filter_cons, hm]

theorem match_process_none_name (t : PyStr) : match_process t none = false := rfl

theorem match_process_empty_name (t : PyStr) : match_process t (some []) = false := by
  simp [match_process]

theorem match_process_empty_hint (p : PyStr) (hp : p ≠ []) :
    match_process [] (some p) = true := by
  refine (match_process_iff [] p hp).mpr ?_
  exact Or.inr (Or.inr (Or.inr ⟨[], pyLower p, by simp [pyLower]⟩))

theorem match_process_empty_eq (n? : Option PyStr) :
    match_process [] n? = nonemptyName n? := by
  cases n? with
  | none => rfl
  | some n =>
      cases n with
      | nil => simp [match_process_empty_name, nonemptyName]
      | cons c cs =>
          rw [match_process_empty_hint (c :: cs) (by simp)]
          simp [nonemptyName]

theorem list_session_step_ok (i : Nat) (s : SessionSpec) (h : sessionOk s = true) :
    (list_session_step i s).2.1 = pidName s.pid ∧
    (list_session_step i s).2.2 = true := by
  simp only [sessionOk, Bool.and_eq_true, Bool.not_eq_true'] at h
  obtain ⟨⟨⟨⟨h1, h2⟩, h3⟩, h4⟩, h5⟩ := h
  simp only [list_session_step, h1, h2, h3, Bool.false_eq_true, if_false]
  constructor <;> simp

theorem list_sessions_run_ok :
    ∀ (specs : List SessionSpec) (i : Nat), (∀ s ∈ specs, sessionOk s = true) →
      (list_sessions_run i specs).2.1 = specs.map (fun s => pidName s.pid) ∧
      (list_sessions_run i specs).2.2 = true := by
  intro specs
  induction specs with
  | nil =>
      intro i _
      constructor <;> rfl
  | cons s rest ih =>
      intro i hok
      have hs : sessionOk s = true := hok s (List.mem_cons_self s rest)
      have hrest : ∀ x ∈ rest, sessionOk x = true :=
        fun x hx => hok x (List.mem_cons_of_mem s hx)
      rcases hstep : list_session_step i s with ⟨tr, n, ok⟩
      obtain ⟨hn, hok2⟩ := list_session_step_ok i s hs
      rw [hstep] at hn hok2
      simp only at hn hok2
      subst hok2
      rcases hrec : list_sessions_run (i + 1) rest with ⟨tr2, ns, ok2⟩
      obtain ⟨hns, hok3⟩ := ih (i + 1) hrest
      rw [hrec] at hns hok3
      simp only at hns hok3
      subst hok3
      unfold list_sessions_run
      rw [hstep, hrec]
      constructor
      · show n :: ns = _
        rw [hn, hns]
        rfl
      · rfl

theorem list_run_ok (f : AppFaults) (h : appOk f = true) :
    (list_audio_sessions_run f).2 =
      some (sortByCasefold
        (collect_names (f.sessions.map (fun s => pidName s.pid)))) := by
  simp only [appOk, Bool.and_eq_true, Bool.not_eq_true'] at h
  obtain ⟨⟨⟨⟨⟨⟨h1, h2⟩, h3⟩, h4⟩, h5⟩, h6⟩, hsess⟩ := h
  have hok : ∀ s ∈ f.sessions, sessionOk s = true := by
    intro s hs
    exact List.all_eq_true.mp hsess s hs
  unfold list_audio_sessions_run
  rw [if_neg (by simp [h1]), if_neg (by simp [h2]), if_neg (by simp [h3]),
    if_neg (by simp [h4]), if_neg (by simp [h5]), if_neg (by simp [h6])]
  rcases hrun : list_sessions_run 0 f.sessions with ⟨tr, ns, ok⟩
  obtain ⟨hns, hok2⟩ := list_sessions_run_ok f.sessions 0 hok
  rw [hrun] at hns hok2
  simp only at hns hok2
  subst hok2
  rw [hns]

theorem collect_foldl_mem : ∀ (xs : List (Option PyStr)) (acc : List PyStr) (x : PyStr),
    x ∈ xs.foldl collectStep acc ↔ x ∈ acc ∨ (some x ∈ xs ∧ x ≠ []) := by
  intro xs
  induction xs with
  | nil =>
      intro acc x
      simp
  | cons n? rest ih =>
      intro acc x
      cases n? with
      | none =>
          have hstep : List.foldl collectStep acc (none :: rest) =
              List.foldl collectStep acc rest := rfl
          rw [hstep, ih]
          simp
      | some n =>
          by_cases hn : n = []
          · subst hn
            have hstep : List.foldl collectStep acc (some [] :: rest) =
                List.foldl collectStep acc rest := rfl
            rw [hstep, ih]
            constructor
            · rintro (hx | ⟨hx1, hx2⟩)
              · exact Or.inl hx
              · exact Or.inr ⟨List.mem_cons_of_mem _ hx1, hx2⟩
            · rintro (hx | ⟨hx1, hx2⟩)
              · exact Or.inl hx
              · rcases List.mem_cons.mp hx1 with hx3 | hx3
                · exact absurd (Option.some_injective _ hx3) hx2
                · exact Or.inr ⟨hx3, hx2⟩
          · have hne : n.isEmpty = false := by
              cases n with
              | nil => exact absurd rfl hn
              | cons c cs => rfl
            have hstep : List.foldl collectStep acc (some n :: rest) =
                List.foldl collectStep (pyUniqueStep acc n) rest := by
              simp [collectStep, hne]
            rw [hstep, ih]
            have hmem : ∀ y, y ∈ pyUniqueStep acc n ↔ y ∈ acc ∨ y = n := by
              intro y
              unfold pyUniqueStep
              by_cases ha : n ∈ acc
              · rw [if_pos ha]
                constructor
                · exact Or.inl
                · rintro (hy | hy)
                  · exact hy
                  · exact hy ▸ ha
              · rw [if_neg ha]
                simp
            rw [hmem]
            constructor
            · rintro ((hx | hx) | ⟨hx1, hx2⟩)
              · exact Or.inl hx
              · exact Or.inr ⟨hx ▸ List.mem_cons_self _ _, hx ▸ hn⟩
              · exact Or.inr ⟨List.mem_cons_of_mem _ hx1, hx2⟩
            · rintro (hx | ⟨hx1, hx2⟩)
              · exact Or.inl (Or.inl hx)
              · rcases List.mem_cons.mp hx1 with hx3 | hx3
                · exact Or.inl (Or.inr (Option.some_injective _ hx3))
                · exact Or.inr ⟨hx3, hx2⟩

theorem collectStep_nodup (acc : List PyStr) (n? : Option PyStr) (h : acc.Nodup) :
    (collectStep acc n?).Nodup := by
  cases n? with
  | none => exact h
  | some n =>
      by_cases he : n.isEmpty = true
      · simpa [collectStep, he] using h
      · by_cases ha : n ∈ acc
        · simpa [collectStep, pyUniqueStep, he, ha] using h
        · have hap : (acc ++ [n]).Nodup := by
            rw [List.nodup_append]
            exact ⟨h, List.nodup_singleton n, by simpa using ha⟩
          simpa [collectStep, pyUniqueStep, he, ha] using hap

theorem collect_foldl_nodup : ∀ (xs : List (Option PyStr)) (acc : List PyStr),
    acc.Nodup → (xs.foldl collectStep acc).Nodup := by
  intro xs
  induction xs with
  | nil =>
      intro acc h
      exact h
  | cons n? rest ih =>
      intro acc h
      have hstep : (n? :: rest).foldl collectStep acc =
          rest.foldl collectStep (collectStep acc n?) := rfl
      rw [hstep]
      exact ih _ (collectStep_nodup acc n? h)

theorem collect_names_mem (xs : List (Option PyStr)) (x : PyStr) :
    x ∈ collect_names xs ↔ some x ∈ xs ∧ x ≠ [] := by
  unfold collect_names
  rw [collect_foldl_mem]
  simp

theorem collect_names_nodup (xs : List (Option PyStr)) : (collect_names xs).Nodup :=
  collect_foldl_nodup xs [] List.nodup_nil

theorem lexLe_total : ∀ a b : List Char, lexLe a b = true ∨ lexLe b a = true := by
  intro a
  induction a with
  | nil =>
      intro b
      left
      rfl
  | cons x xs ih =>
      intro b
      cases b with
      | nil =>
          right
          rfl
      | cons y ys =>
          rcases Nat.lt_trichotomy x.toNat y.toNat with h | h | h
          · left
            simp [lexLe, h]
          · have hn1 : ¬ x.toNat < y.toNat := by omega
            have hn2 : ¬ y.toNat < x.toNat := by omega
            rcases ih ys with hc | hc
            · left
              simp [lexLe, hn1, hn2, hc]
            · right
              simp [lexLe, hn1, hn2, hc]
          · right
            simp [lexLe, h]

theorem lexLe_trans : ∀ a b c : List Char,
    lexLe a b = true → lexLe b c = true → lexLe a c = true := by
  intro a
  induction a with
  | nil =>
      intro b c _ _
      rfl
  | cons x xs ih =>
      intro b c hab hbc
      cases b with
      | nil => simp [lexLe] at hab
      | cons y ys =>
          cases c with
          | nil => simp [lexLe] at hbc
          | cons z zs =>
              simp only [lexLe] at hab hbc ⊢
              by_cases h1 : x.toNat < y.toNat
              · by_cases h2 : y.toNat < z.toNat
                · have : x.toNat < z.toNat := Nat.lt_trans h1 h2
                  simp [this]
                · by_cases h3 : z.toNat < y.toNat
                  · rw [if_neg h2, if_pos h3] at hbc
                    exact absurd hbc (by simp)
                  · have : x.toNat < z.toNat := by omega
                    simp [this]
              · by_cases h1b : y.toNat < x.toNat
                · rw [if_neg h1, if_pos h1b] at hab
                  exact absurd hab (by simp)
                · rw [if_neg h1, if_neg h1b] at hab
                  by_cases h2 : y.toNat < z.toNat
                  · have : x.toNat < z.toNat := by omega
                    simp [this]
                  · by_cases h3 : z.toNat < y.toNat
                    · rw [if_neg h2, if_pos h3] at hbc
                      exact absurd hbc (by simp)
                    · rw [if_neg h2, if_neg h3] at hbc
                      have hac := ih ys zs hab hbc
                      have hnx : ¬ x.toNat < z.toNat := by omega
                      have hnz : ¬ z.toNat < x.toNat := by omega
                      rw [if_neg hnx, if_neg hnz]
                      exact hac

theorem sortByCasefold_sorted (xs : List PyStr) :
    List.Pairwise (fun a b => casefoldLe a b = true) (sortByCasefold xs) := by
  haveI htot : IsTotal PyStr (fun a b => casefoldLe a b = true) :=
    ⟨fun a b => lexLe_total (pyLower a) (pyLower b)⟩
  haveI htrans : IsTrans PyStr (fun a b => casefoldLe a b = true) :=
    ⟨fun a b c => lexLe_trans (pyLower a) (pyLower b) (pyLower c)⟩
  exact List.sorted_insertionSort (fun a b => casefoldLe a b = true) xs

theorem sortByCasefold_perm (xs : List PyStr) : (sortByCasefold xs).Perm xs :=
  List.perm_insertionSort (fun a b => casefoldLe a b = true) xs

theorem lookup_single_char (c : Char) : lookupTable VIRTUAL_KEYS [c] = none := by
  simp [lookupTable, VIRTUAL_KEYS, sCtrl, sShift, sAlt, sWin]

theorem lookup_f_token (rest : List Char) :
    lookupTable VIRTUAL_KEYS ('f' :: rest) = none := by
  simp [lookupTable, VIRTUAL_KEYS, sCtrl, sShift, sAlt, sWin]

theorem virtual_key_table (t : PyStr) (vk : Nat)
    (h : lookupTable VIRTUAL_KEYS (pyLower t) = some vk) : virtual_key t = some vk := by
  simp only [virtual_key, h]

theorem virtual_key_f (t : PyStr) (rest : List Char) (ht : pyLower t = 'f' :: rest)
    (hne : rest ≠ []) (hdig : rest.all Char.isDigit = true)
    (h1 : 1 ≤ natOfDigits rest) (h35 : natOfDigits rest ≤ 35) :
    virtual_key t = some (0x70 + (natOfDigits rest - 1)) := by
  simp only [virtual_key, ht, lookup_f_token]
  have hie : rest.isEmpty = false := by
    cases rest with
    | nil => exact absurd rfl hne
    | cons a b => rfl
  simp [startsWithList, hie, hdig, h1, h35]

theorem virtual_key_single (c : Char) :
    virtual_key [c] =
      (if 0x30 ≤ (Char.toUpper (Char.toLower c)).toNat ∧
          (Char.toUpper (Char.toLower c)).toNat ≤ 0x5A then
        some (Char.toUpper (Char.toLower c)).toNat
      else none) := by
  simp only [virtual_key, pyLower, List.map_cons, List.map_nil, lookup_single_char]
  simp [startsWithList]

theorem virtual_key_other (t : PyStr)
    (hlk : lookupTable VIRTUAL_KEYS (pyLower t) = none)
    (hf : ∀ rest, pyLower t = 'f' :: rest →
      ¬(rest ≠ [] ∧ rest.all Char.isDigit = true ∧
        1 ≤ natOfDigits rest ∧ natOfDigits rest ≤ 35))
    (hc : ∀ c, pyLower t ≠ [c]) :
    virtual_key t = none := by
  simp only [virtual_key, hlk]
  cases hpt : pyLower t with
  | nil => simp [startsWithList]
  | cons x rest =>
      by_cases hx : x = 'f'
      · subst hx
        cases rest with
        | nil => exact absurd hpt (hc 'f')
        | cons a b =>
            by_cases hdig : (a :: b).all Char.isDigit = true
            · have hrange : ¬(1 ≤ natOfDigits (a :: b) ∧ natOfDigits (a :: b) ≤ 35) := by
                intro hr
                exact hf (a :: b) hpt ⟨by simp, hdig, hr.1, hr.2⟩
              simp [startsWithList, hdig, hrange]
            · simp [startsWithList, hdig]
      · have hsw : startsWithList ['f'] (x :: rest) = false := by
          simp only [startsWithList]
          rw [if_neg (fun h => hx h.symm)]
        cases rest with
        | nil => exact absurd hpt (hc x)
        | cons a b => simp [hsw]

theorem send_hotkey_resolved (tokens : List PyStr) (hne : tokens ≠ [])
    (hall : ∀ t ∈ tokens.map pyLower, (virtual_key t).isSome = true) :
    send_hotkey tokens =
      ((((tokens.map pyLower).filter
            (fun t => decide (t ∈ hotkeyModifiers))).filterMap virtual_key).map
          KeyEvent.down ++
        (((tokens.map pyLower).filter
            (fun t => decide (t ∉ hotkeyModifiers))).filterMap virtual_key).map
          KeyEvent.down ++
        ((((tokens.map pyLower).filter
            (fun t => decide (t ∉ hotkeyModifiers))).filterMap virtual_key).reverse).map
          KeyEvent.up ++
        ((((tokens.map pyLower).filter
            (fun t => decide (t ∈ hotkeyModifiers))).filterMap virtual_key).reverse).map
          KeyEvent.up, none) := by
  have hseq : (tokens.map pyLower).isEmpty = false := by
    cases tokens with
    | nil => exact absurd rfl hne
    | cons a b => rfl
  cases hr : resolve_all (tokens.map pyLower) with
  | error e =>
      obtain ⟨hv, hm⟩ := resolve_all_error_spec _ e hr
      have hsome := hall e hm
      rw [hv] at hsome
      simp at hsome
  | ok ks =>
      have h1 := resolve_all_zip_filter _ ks hr (fun t => decide (t ∈ hotkeyModifiers))
      have h2 := resolve_all_zip_filter _ ks hr (fun t => decide (t ∉ hotkeyModifiers))
      unfold send_hotkey
      simp only [hseq, Bool.false_eq_true, if_false, hr]
      simp only [h1, h2]
      by_cases hm : (((tokens.map pyLower).filter
          (fun t => decide (t ∉ hotkeyModifiers))).filterMap virtual_key).isEmpty = true
      · have hmn : ((tokens.map pyLower).filter
            (fun t => decide (t ∉ hotkeyModifiers))).filterMap virtual_key = [] :=
          List.isEmpty_iff.mp hm
        simp [hm, hmn]
      · simp [hm]

theorem send_hotkey_exec_eq (oracle : Nat → Bool) (tokens : List PyStr) :
    (send_hotkey_exec oracle tokens).1.attempted = (send_hotkey tokens).1 ∧
    (send_hotkey_exec oracle tokens).2 = (send_hotkey tokens).2 := by
  unfold send_hotkey_exec send_hotkey
  by_cases hemp : (tokens.map pyLower).isEmpty = true
  · simp [hemp]
  · simp only [hemp, Bool.false_eq_true, if_false]
    cases hr : resolve_all (tokens.map pyLower) with
    | error e => simp
    | ok ks =>
        by_cases hm : ((((tokens.map pyLower).zip ks).filter
            (fun p => decide (p.1 ∉ hotkeyModifiers))).map Prod.snd).isEmpty = true
        · simp only [if_pos hm]
          simp [send_keys_attempted]
        · simp only [if_neg hm]
          simp [send_keys_attempted]

theorem app_run_ok (hint : PyStr) (percent : ℤ) (f : AppFaults) (h : appOk f = true) :
    (set_application_volume_run hint percent f).2.2 =
      some (f.sessions.any (fun s => match_process hint (pidName s.pid))) ∧
    (set_application_volume_run hint percent f).2.1 =
      ((List.enumFrom 0 f.sessions).filter
        (fun p => match_process hint (pidName p.2.pid))).map
        (fun p => (p.1, clamp_level percent)) := by
  simp only [appOk, Bool.and_eq_true, Bool.not_eq_true'] at h
  obtain ⟨⟨⟨⟨⟨⟨h1, h2⟩, h3⟩, h4⟩, h5⟩, h6⟩, hsess⟩ := h
  have hok : ∀ s ∈ f.sessions, sessionOk s = true :=
    fun s hs => List.all_eq_true.mp hsess s hs
  simp only [set_application_volume_run]
  rw [if_neg (by simp [h1]), if_neg (by simp [h2]), if_neg (by simp [h3]),
    if_neg (by simp [h4]), if_neg (by simp [h5]), if_neg (by simp [h6])]
  rcases hrun : app_sessions_run hint (clamp_level percent) 0 f.sessions with ⟨tr, vols, r⟩
  obtain ⟨hr, hvols⟩ := app_sessions_run_ok hint (clamp_level percent) f.sessions 0 hok
  rw [hrun] at hr hvols
  simp only at hr hvols
  exact ⟨hr, hvols⟩

theorem app_session_step_vols (hint : PyStr) (level : ℚ) (i : Nat) (s : SessionSpec) :
    ∀ pr ∈ (app_session_step hint level i s).2.1, pr.2 = level := by
  unfold app_session_step
  by_cases h1 : s.fetchFail = true
  · rw [if_pos h1]
    intro pr hpr
    simp at hpr
  · rw [if_neg h1]
    by_cases h2 : s.qiControlFail = true
    · rw [if_pos h2]
      intro pr hpr
      simp at hpr
    · rw [if_neg h2]
      by_cases h3 : s.getPidFail = true
      · rw [if_pos h3]
        intro pr hpr
        simp at hpr
      · rw [if_neg h3]
        by_cases hm : match_process hint (pidName s.pid) = true
        · rw [if_pos hm]
          by_cases h4 : s.qiVolumeFail = true
          · rw [if_pos h4]
            intro pr hpr
            simp at hpr
          · rw [if_neg h4]
            by_cases h5 : s.setVolumeFail = true
            · rw [if_pos h5]
              intro pr hpr
              simp at hpr
            · rw [if_neg h5]
              intro pr hpr
              simp at hpr
              rw [hpr]
        · rw [if_neg hm]
          intro pr hpr
          simp at hpr

theorem app_sessions_run_vols (hint : PyStr) (level : ℚ) :
    ∀ (specs : List SessionSpec) (i : Nat),
      ∀ pr ∈ (app_sessions_run hint level i specs).2.1, pr.2 = level := by
  intro specs
  induction specs with
  | nil =>
      intro i pr hpr
      simp [app_sessions_run] at hpr
  | cons s rest ih =>
      intro i pr hpr
      rcases hstep : app_session_step hint level i s with ⟨tr, vols, r⟩
      have hstepv := app_session_step_vols hint level i s
      rw [hstep] at hstepv
      simp only at hstepv
      cases r with
      | none =>
          rw [show app_sessions_run hint level i (s :: rest) = (tr, vols, none) by
            unfold app_sessions_run; rw [hstep]] at hpr
          exact hstepv pr hpr
      | some b =>
          rcases hrec : app_sessions_run hint level (i + 1) rest with ⟨tr2, vols2, r2⟩
          have hrecv := ih (i + 1)
          rw [hrec] at hrecv
          simp only at hrecv
          have hred : (app_sessions_run hint level i (s :: rest)).2.1 =
              vols ++ vols2 := by
            cases r2 with
            | none =>
                unfold app_sessions_run
                rw [hstep, hrec]
            | some b2 =>
                unfold app_sessions_run
                rw [hstep, hrec]
          rw [hred] at hpr
          rcases List.mem_append.mp hpr with hx | hx
          · exact hstepv pr hx
          · exact hrecv pr hx

theorem app_run_vols (hint : PyStr) (percent : ℤ) (f : AppFaults) :
    ∀ pr ∈ (set_application_volume_run hint percent f).2.1,
      pr.2 = clamp_level percent := by
  simp only [set_application_volume_run]
  by_cases h1 : f.coInit = true
  · rw [if_pos h1]
    intro pr hpr
    simp at hpr
  · rw [if_neg h1]
    by_cases h2 : f.createEnum = true
    · rw [if_pos h2]
      intro pr hpr
      simp at hpr
    · rw [if_neg h2]
      by_cases h3 : f.getDevice = true
      · rw [if_pos h3]
        intro pr hpr
        simp at hpr
      · rw [if_neg h3]
        by_cases h4 : f.activate = true
        · rw [if_pos h4]
          intro pr hpr
          simp at hpr
        · rw [if_neg h4]
          by_cases h5 : f.getSessionEnum = true
          · rw [if_pos h5]
            intro pr hpr
            simp at hpr
          · rw [if_neg h5]
            by_cases h6 : f.getCount = true
            · rw [if_pos h6]
              intro pr hpr
              simp at hpr
            · rw [if_neg h6]
              rcases hrun : app_sessions_run hint (clamp_level percent) 0 f.sessions
                with ⟨tr, vols, r⟩
              have hv := app_sessions_run_vols hint (clamp_level percent) f.sessions 0
              rw [hrun] at hv
              simp only at hv
              intro pr hpr
              exact hv pr hpr

theorem nonemptyName_iff (o : Option PyStr) :
    nonemptyName o = true ↔ ∃ n, o = some n ∧ n ≠ [] := by
  cases o with
  | none => simp [nonemptyName]
  | some n =>
      simp [nonemptyName, List.isEmpty_iff]

/-- Claim C1 (amended): for every processHint and every NON-EMPTY process
name, matchProcess returns true exactly when, after lowercasing both
strings, they are equal, or one equals the other with a trailing ".exe"
removed, or the hint is a substring of the process name.  The example
evaluations hold except matchProcess("cod", "discord.exe"), which is
false, because "cod" is not a substring of "discord.exe"; and an empty
or absent process name never matches, which falsifies the claim as
stated at the empty name. -/
theorem claim1_match_process_spec :
    (∀ (t p : PyStr), p ≠ [] → (match_process t (some p) = true ↔
      (pyLower t = pyLower p ∨ pyLower p = pyLower t ++ exeSuffix ∨
       pyLower t = pyLower p ++ exeSuffix ∨
       ∃ pre post, pyLower p = pre ++ pyLower t ++ post))) ∧
    match_process sChrome (some sChromeExe) = true ∧
    match_process sChromeExe (some sChrome) = true ∧
    match_process sSpotify (some sSpotifyCapExe) = true ∧
    match_process sCod (some sDiscordExe) = false ∧
    match_process sFirefox (some sChromeExe) = false := by
  refine ⟨match_process_iff, ?_, ?_, ?_, ?_, ?_⟩ <;> decide

/-- Claim C1 witness: the characterisation applied at "chrome" versus
"chrome.exe". -/
theorem claim1_witness :
    match_process sChrome (some sChromeExe) = true ↔
      (pyLower sChrome = pyLower sChromeExe ∨
       pyLower sChromeExe = pyLower sChrome ++ exeSuffix ∨
       pyLower sChrome = pyLower sChromeExe ++ exeSuffix ∨
       ∃ pre post, pyLower sChromeExe = pre ++ pyLower sChrome ++ post) :=
  claim1_match_process_spec.1 sChrome sChromeExe (by decide)

/-- Claim C1 counterexample: matchProcess("cod", "discord.exe") is false,
not true as claimed ("cod" is not a substring of "discord.exe"); and at
processHint `""` with process name `""` the code returns false while the
claimed condition (equality after lowercasing) holds. -/
theorem claim1_counterexample :
    match_process sCod (some sDiscordExe) = false ∧
    ¬ (match_process [] (some []) = true ↔
      (pyLower [] = pyLower ([] : PyStr) ∨
       pyLower ([] : PyStr) = pyLower [] ++ exeSuffix ∨
       pyLower [] = pyLower ([] : PyStr) ++ exeSuffix ∨
       ∃ pre post, pyLower ([] : PyStr) = pre ++ pyLower [] ++ post)) := by
  constructor
  · decide
  · intro h
    have hb := h.mpr (Or.inl rfl)
    exact absurd hb (by decide)

/-- Claim C3: for each of the three audio operations, under every fault
injection the resource trace is well-nested (each release matches the
most recently acquired unreleased resource and the final stack is empty),
and in particular every resource kind is acquired exactly as often as it
is released. -/
theorem claim3_resource_balance :
    (∀ (percent : ℤ) (f : MasterFaults),
      runStack [] (set_master_volume_run percent f).1 = some [] ∧
      ∀ r, acqCount r (set_master_volume_run percent f).1 =
        relCount r (set_master_volume_run percent f).1) ∧
    (∀ (hint : PyStr) (percent : ℤ) (f : AppFaults),
      runStack [] (set_application_volume_run hint percent f).1 = some [] ∧
      ∀ r, acqCount r (set_application_volume_run hint percent f).1 =
        relCount r (set_application_volume_run hint percent f).1) ∧
    (∀ f : AppFaults,
      runStack [] (list_audio_sessions_run f).1 = some [] ∧
      ∀ r, acqCount r (list_audio_sessions_run f).1 =
        relCount r (list_audio_sessions_run f).1) := by
  refine ⟨fun percent f => ⟨master_balanced percent f, fun r =>
      balanced_counts _ (master_balanced percent f) r⟩,
    fun hint percent f => ⟨app_balanced hint percent f, fun r =>
      balanced_counts _ (app_balanced hint percent f) r⟩,
    fun f => ⟨list_balanced f, fun r =>
      balanced_counts _ (list_balanced f) r⟩⟩

/-- Claim C9: the attempted key-event sequence of sendSequence is the
same under any submission-failure oracle as under the all-success oracle,
and coincides with the pure emitted trace; failures also do not change
which unsupported token, if any, is reported. -/
theorem claim9_best_effort :
    ∀ (tokens : List PyStr) (oracle : Nat → Bool),
      (send_hotkey_exec oracle tokens).1.attempted =
        (send_hotkey_exec (fun _ => true) tokens).1.attempted ∧
      (send_hotkey_exec oracle tokens).1.attempted = (send_hotkey tokens).1 ∧
      (send_hotkey_exec oracle tokens).2 = (send_hotkey tokens).2 := by
  intro tokens oracle
  obtain ⟨h1, h2⟩ := send_hotkey_exec_eq oracle tokens
  obtain ⟨h1t, _⟩ := send_hotkey_exec_eq (fun _ => true) tokens
  exact ⟨by rw [h1, h1t], h1, h2⟩

/-- Claim C2: sendSequence of the empty sequence emits nothing; if any
token is unresolvable, no event is emitted and an unsupported token is
reported; otherwise the emitted trace is key-down for each modifier,
key-down for each main key in order, key-up for the main keys in reverse
order, then key-up for the modifiers in reverse order (the main-key block
being empty for a modifier-only sequence); in particular
["ctrl","shift","a"] gives down/down/down/up/up/up and ["ctrl"] gives
down(ctrl), up(ctrl). -/
theorem claim2_send_sequence :
    send_hotkey ([] : List PyStr) = ([], none) ∧
    (∀ tokens : List PyStr, (∃ t ∈ tokens.map pyLower, virtual_key t = none) →
      (send_hotkey tokens).1 = [] ∧
      ∃ e, (send_hotkey tokens).2 = some e ∧ virtual_key e = none ∧
        e ∈ tokens.map pyLower) ∧
    (∀ tokens : List PyStr, tokens ≠ [] →
      (∀ t ∈ tokens.map pyLower, (virtual_key t).isSome = true) →
      send_hotkey tokens =
        ((((tokens.map pyLower).filter
              (fun t => decide (t ∈ hotkeyModifiers))).filterMap virtual_key).map
            KeyEvent.down ++
          (((tokens.map pyLower).filter
              (fun t => decide (t ∉ hotkeyModifiers))).filterMap virtual_key).map
            KeyEvent.down ++
          ((((tokens.map pyLower).filter
              (fun t => decide (t ∉ hotkeyModifiers))).filterMap virtual_key).reverse).map
            KeyEvent.up ++
          ((((tokens.map pyLower).filter
              (fun t => decide (t ∈ hotkeyModifiers))).filterMap virtual_key).reverse).map
            KeyEvent.up, none)) ∧
    send_hotkey [sCtrl, sShift, sA] =
      ([KeyEvent.down 0x11, KeyEvent.down 0x10, KeyEvent.down 0x41,
        KeyEvent.up 0x41, KeyEvent.up 0x10, KeyEvent.up 0x11], none) ∧
    send_hotkey [sCtrl] = ([KeyEvent.down 0x11, KeyEvent.up 0x11], none) := by
  refine ⟨rfl, ?_, send_hotkey_resolved, by decide, by decide⟩
  intro tokens hex
  have hne : tokens ≠ [] := by
    rintro rfl
    simpa using hex
  obtain ⟨e, hr⟩ := resolve_all_exists_error _ hex
  obtain ⟨hv, hm⟩ := resolve_all_error_spec _ e hr
  have hseq : (tokens.map pyLower).isEmpty = false := by
    cases tokens with
    | nil => exact absurd rfl hne
    | cons a b => rfl
  unfold send_hotkey
  simp only [hseq, Bool.false_eq_true, if_false, hr]
  exact ⟨trivial, e, rfl, hv, hm⟩

/-- Claim C2 witness: the aborting case applied to ["ctrl","zz"] (where
"zz" is unresolvable) and the normal case applied to ["ctrl","a"]. -/
theorem claim2_witness :
    ((send_hotkey [sCtrl, ['z', 'z']]).1 = [] ∧
      ∃ e, (send_hotkey [sCtrl, ['z', 'z']]).2 = some e ∧ virtual_key e = none ∧
        e ∈ [sCtrl, ['z', 'z']].map pyLower) ∧
    (send_hotkey [sCtrl, sA]).2 = none := by
  have h2 := claim2_send_sequence.2.1 [sCtrl, ['z', 'z']] (by decide)
  have h3 := claim2_send_sequence.2.2.1 [sCtrl, sA] (by decide) (by decide)
  exact ⟨h2, by rw [h3]⟩

/-- Claim C10: the empty hint matches every non-empty process name (the
empty string is a substring of every string); an absent or empty process
name matches no hint; consequently, with all platform calls succeeding,
setApplicationVolume with the empty hint returns true exactly when some
session has a resolvable non-empty process name, and sets the volume of
exactly those sessions. -/
theorem claim10_empty_hint :
    (∀ p : PyStr, p ≠ [] → match_process [] (some p) = true) ∧
    (∀ t : PyStr, match_process t none = false) ∧
    (∀ t : PyStr, match_process t (some []) = false) ∧
    (∀ (percent : ℤ) (f : AppFaults), appOk f = true →
      ((set_application_volume_run [] percent f).2.2 = some true ↔
        ∃ s ∈ f.sessions, ∃ n, pidName s.pid = some n ∧ n ≠ []) ∧
      (set_application_volume_run [] percent f).2.1 =
        ((List.enumFrom 0 f.sessions).filter
          (fun p => nonemptyName (pidName p.2.pid))).map
            (fun p => (p.1, clamp_level percent))) := by
  refine ⟨match_process_empty_hint, match_process_none_name, match_process_empty_name, ?_⟩
  intro percent f h
  obtain ⟨ha, hb⟩ := app_run_ok [] percent f h
  have hfun : (fun s : SessionSpec => match_process [] (pidName s.pid)) =
      (fun s : SessionSpec => nonemptyName (pidName s.pid)) :=
    funext fun s => match_process_empty_eq (pidName s.pid)
  have hfun2 : (fun p : Nat × SessionSpec => match_process [] (pidName p.2.pid)) =
      (fun p : Nat × SessionSpec => nonemptyName (pidName p.2.pid)) :=
    funext fun p => match_process_empty_eq (pidName p.2.pid)
  constructor
  · rw [ha, hfun]
    constructor
    · intro hsome
      have : f.sessions.any (fun s => nonemptyName (pidName s.pid)) = true := by
        injection hsome
      obtain ⟨s, hs, hn⟩ := List.any_eq_true.mp this
      exact ⟨s, hs, (nonemptyName_iff _).mp hn⟩
    · rintro ⟨s, hs, n, hn, hne⟩
      have : f.sessions.any (fun s => nonemptyName (pidName s.pid)) = true :=
        List.any_eq_true.mpr ⟨s, hs, (nonemptyName_iff _).mpr ⟨n, hn, hne⟩⟩
      rw [this]
  · rw [hb, hfun2]

/-- Claim C10 witness: the empty hint matches "chrome", and on a
 one-session run whose process resolves to "chrome.exe" the empty-hint
 application-volume call reports a match. -/
theorem claim10_witness :
    match_process [] (some sChrome) = true ∧
    ((set_application_volume_run [] 30 (AppFaults.mk false false false false false false
        [SessionSpec.mk false false false (PidLookup.found sChromeExe) false false])).2.2 =
          some true ↔
      ∃ s ∈ (AppFaults.mk false false false false false false
        [SessionSpec.mk false false false (PidLookup.found sChromeExe) false false]).sessions,
        ∃ n, pidName s.pid = some n ∧ n ≠ []) :=
  ⟨claim10_empty_hint.1 sChrome (by decide),
   (claim10_empty_hint.2.2.2 30 _ (by decide)).1⟩

/-- Claim C4: assuming every platform call succeeds, setApplicationVolume
returns true exactly when at least one enumerated session's owning
process name matches the hint, returns false (as a normal result, not an
error) otherwise, and writes the clamped level to exactly the matching
sessions. -/
theorem claim4_set_application_volume (hint : PyStr) (percent : ℤ) (f : AppFaults)
    (h : appOk f = true) :
    (set_application_volume_run hint percent f).2.2 =
      some (f.sessions.any (fun s => match_process hint (pidName s.pid))) ∧
    ((set_application_volume_run hint percent f).2.2 = some true ↔
      ∃ s ∈ f.sessions, match_process hint (pidName s.pid) = true) ∧
    (set_application_volume_run hint percent f).2.1 =
      ((List.enumFrom 0 f.sessions).filter
        (fun p => match_process hint (pidName p.2.pid))).map
          (fun p => (p.1, clamp_level percent)) := by
  obtain ⟨ha, hb⟩ := app_run_ok hint percent f h
  refine ⟨ha, ?_, hb⟩
  rw [ha]
  constructor
  · intro hsome
    have hany : f.sessions.any (fun s => match_process hint (pidName s.pid)) = true := by
      injection hsome
    exact List.any_eq_true.mp hany
  · intro hex
    rw [List.any_eq_true.mpr hex]

/-- Claim C4 witness: a successful run with one session owned by
"chrome.exe" matched against the hint "chrome" reports a match, and a
run whose only session is owned by "spotify" matched against "firefox"
reports false as a normal result. -/
theorem claim4_witness :
    (set_application_volume_run sChrome 50 (AppFaults.mk false false false false false false
      [SessionSpec.mk false false false (PidLookup.found sChromeExe) false false])).2.2 =
      some ((AppFaults.mk false false false false false false
        [SessionSpec.mk false false false (PidLookup.found sChromeExe) false false]).sessions.any
          (fun s => match_process sChrome (pidName s.pid))) ∧
    (set_application_volume_run sFirefox 50 (AppFaults.mk false false false false false false
      [SessionSpec.mk false false false (PidLookup.found sSpotify) false false])).2.2 =
      some ((AppFaults.mk false false false false false false
        [SessionSpec.mk false false false (PidLookup.found sSpotify) false false]).sessions.any
          (fun s => match_process sFirefox (pidName s.pid))) :=
  ⟨(claim4_set_application_volume sChrome 50 _ (by decide)).1,
   (claim4_set_application_volume sFirefox 50 _ (by decide)).1⟩

/-- Claim C5 (amended): named modifier and special-key tokens resolve via
the fixed lookup table; tokens of the form f&lt;N&gt; with 1 ≤ N ≤ 35 resolve
to the function-key codes; a single-character token resolves via the
character code of its upper-cased form exactly when that code lies in
[0x30, 0x5A] — this range contains the digits and letters but also the
ASCII characters : ; &lt; = &gt; ? @, so "alphanumeric only" is not what the
code implements; every other token is unresolvable. -/
theorem claim5_virtual_key_rules :
    (∀ (t : PyStr) (vk : Nat), lookupTable VIRTUAL_KEYS (pyLower t) = some vk →
      virtual_key t = some vk) ∧
    (∀ (t : PyStr) (rest : List Char), pyLower t = 'f' :: rest → rest ≠ [] →
      rest.all Char.isDigit = true → 1 ≤ natOfDigits rest → natOfDigits rest ≤ 35 →
      virtual_key t = some (0x70 + (natOfDigits rest - 1))) ∧
    (∀ c : Char, virtual_key [c] =
      (if 0x30 ≤ (Char.toUpper (Char.toLower c)).toNat ∧
          (Char.toUpper (Char.toLower c)).toNat ≤ 0x5A then
        some (Char.toUpper (Char.toLower c)).toNat
      else none)) ∧
    (∀ t : PyStr, lookupTable VIRTUAL_KEYS (pyLower t) = none →
      (∀ rest, pyLower t = 'f' :: rest →
        ¬(rest ≠ [] ∧ rest.all Char.isDigit = true ∧
          1 ≤ natOfDigits rest ∧ natOfDigits rest ≤ 35)) →
      (∀ c, pyLower t ≠ [c]) → virtual_key t = none) :=
  ⟨virtual_key_table, virtual_key_f, virtual_key_single, virtual_key_other⟩

/-- Claim C5 witness: the table rule at "ctrl", the function-key rule at
"f5", and the unresolvable rule at "zz". -/
theorem claim5_witness :
    virtual_key sCtrl = some 0x11 ∧
    virtual_key ['f', '5'] = some (0x70 + (natOfDigits ['5'] - 1)) ∧
    virtual_key ['z', 'z'] = none :=
  ⟨claim5_virtual_key_rules.1 sCtrl 0x11 (by decide),
   claim5_virtual_key_rules.2.1 ['f', '5'] ['5'] (by decide) (by decide) (by decide)
     (by decide) (by decide),
   claim5_virtual_key_rules.2.2.2 ['z', 'z'] (by decide)
     (by intro rest hr; simp [pyLower] at hr)
     (by intro c hc; simp [pyLower] at hc)⟩

/-- Claim C5 counterexample: the single-character token ";" is not
alphanumeric, yet it resolves (to its own code 0x3B), because the
accepted range [0x30, 0x5A] includes the punctuation between '9' and
'A'; so "resolves exactly when alphanumeric" is false. -/
theorem claim5_counterexample :
    virtual_key [';'] = some 0x3B ∧ Char.isAlphanum ';' = false := by
  decide

/-- Claim C6 (amended): assuming every platform call succeeds,
listActiveSessions returns the resolved non-empty owning-process names,
de-duplicated EXACTLY (case-sensitively — a Python set of strings), and
sorted case-insensitively; when the backend is unavailable the
surrounding helper returns an empty list rather than an error; two
sessions with the identical name "chrome.exe" yield the one-element
result. -/
theorem claim6_list_sessions :
    (∀ f : AppFaults, appOk f = true →
      ∃ out, (list_audio_sessions_run f).2 = some out ∧
        List.Pairwise (fun a b => casefoldLe a b = true) out ∧
        out.Nodup ∧
        (∀ n : PyStr, n ∈ out ↔
          (∃ s ∈ f.sessions, pidName s.pid = some n) ∧ n ≠ [])) ∧
    available_audio_sessions none = ([], []) ∧
    (list_audio_sessions_run (AppFaults.mk false false false false false false
      [SessionSpec.mk false false false (PidLookup.found sChromeExe) false false,
       SessionSpec.mk false false false (PidLookup.found sChromeExe) false false])).2 =
      some [sChromeExe] := by
  refine ⟨?_, rfl, by decide⟩
  intro f h
  rw [list_run_ok f h]
  refine ⟨_, rfl, sortByCasefold_sorted _, ?_, ?_⟩
  · exact ((sortByCasefold_perm _).nodup_iff).mpr (collect_names_nodup _)
  · intro n
    rw [(sortByCasefold_perm _).mem_iff, collect_names_mem]
    simp

/-- Claim C6 witness: the characterisation applied to a successful run
with sessions owned by "Spotify.exe" and "chrome.exe". -/
theorem claim6_witness :
    ∃ out, (list_audio_sessions_run (AppFaults.mk false false false false false false
      [SessionSpec.mk false false false (PidLookup.found sSpotifyCapExe) false false,
       SessionSpec.mk false false false (PidLookup.found sChromeExe) false false])).2 =
        some out ∧
      List.Pairwise (fun a b => casefoldLe a b = true) out ∧
      out.Nodup ∧
      (∀ n : PyStr, n ∈ out ↔
        (∃ s ∈ (AppFaults.mk false false false false false false
          [SessionSpec.mk false false false (PidLookup.found sSpotifyCapExe) false false,
           SessionSpec.mk false false false (PidLookup.found sChromeExe) false false]).sessions,
          pidName s.pid = some n) ∧ n ≠ []) :=
  claim6_list_sessions.1 _ (by decide)

/-- Claim C6 counterexample: two sessions whose names differ only in
letter case ("Chrome.exe" and "chrome.exe") both appear in the result:
the Python set de-duplicates exact strings, not case-insensitively, so
the claimed one-element result is false. -/
theorem claim6_counterexample :
    (list_audio_sessions_run (AppFaults.mk false false false false false false
      [SessionSpec.mk false false false (PidLookup.found sChromeExeCap) false false,
       SessionSpec.mk false false false (PidLookup.found sChromeExe) false false])).2 =
      some [sChromeExeCap, sChromeExe] ∧
    pyLower sChromeExeCap = pyLower sChromeExe ∧
    sChromeExeCap ≠ sChromeExe := by
  decide

theorem clamp_level_eq (p : ℤ) :
    clamp_level p = ((max 0 (min 100 p) : ℤ) : ℚ) / 100 := by
  have h100 : (0 : ℚ) < 100 := by norm_num
  calc clamp_level p = max 0 (min 1 ((p : ℚ) / 100)) := rfl
    _ = max ((0 : ℚ) / 100) (min ((100 : ℚ) / 100) ((p : ℚ) / 100)) := by norm_num
    _ = max ((0 : ℚ) / 100) (min (100 : ℚ) (p : ℚ) / 100) := by
        rw [min_div_div_right (le_of_lt h100)]
    _ = max (0 : ℚ) (min (100 : ℚ) (p : ℚ)) / 100 := by
        rw [max_div_div_right (le_of_lt h100)]
    _ = ((max 0 (min 100 p) : ℤ) : ℚ) / 100 := by push_cast; ring

/-- Claim C7: the volume level used by both volume operations is the
input percentage clamped to [0, 100] and divided by 100; it always lies
in [0, 1]; 150 gives 1, -20 gives 0 and 47 gives 0.47.  The master
operation computes exactly this level, and every per-session volume
write of the application operation carries exactly this level. -/
theorem claim7_volume_level :
    ∀ p : ℤ,
      clamp_level p = ((max 0 (min 100 p) : ℤ) : ℚ) / 100 ∧
      0 ≤ clamp_level p ∧ clamp_level p ≤ 1 ∧
      (∀ f : MasterFaults, (set_master_volume_run p f).2.1 = clamp_level p) ∧
      (∀ (hint : PyStr) (f : AppFaults),
        ∀ pr ∈ (set_application_volume_run hint p f).2.1,
          pr.2 = clamp_level p) ∧
      clamp_level 150 = 1 ∧ clamp_level (-20) = 0 ∧ clamp_level 47 = 47 / 100 := by
  intro p
  refine ⟨clamp_level_eq p, le_max_left 0 _, ?_, ?_,
    fun hint f => app_run_vols hint p f, ?_, ?_, ?_⟩
  · exact max_le (by norm_num) (min_le_left _ _)
  · intro f
    rcases f with ⟨c, e, d, a, s⟩
    cases c <;> cases e <;> cases d <;> cases a <;> rfl
  · rw [clamp_level_eq]
    norm_num
  · rw [clamp_level_eq]
    norm_num
  · rw [clamp_level_eq]
    norm_num

theorem pyUnique_spec (ts : List PyStr) :
    (pyUnique ts).Sublist ts ∧ (pyUnique ts).Nodup ∧
      (∀ x, x ∈ pyUnique ts ↔ x ∈ ts) := by
  obtain ⟨s, h1, h2, _, h4, h5⟩ := pyUnique_foldl ts []
  have hs : pyUnique ts = s := by simpa [pyUnique] using h1
  rw [hs]
  refine ⟨h2, h4, fun x => ?_⟩
  have hx := h5 x
  simpa using hx

/-- Claim C8: order_tokens removes duplicate tokens, keeps exactly the
tokens of the input, places the modifiers first in the fixed order ctrl,
shift, alt, win, and keeps the remaining tokens afterwards in their
original relative order (they form a sublist of the input); in
particular order_tokens(["a","win","ctrl"]) = ["ctrl","win","a"]. -/
theorem claim8_order_tokens :
    (∀ ts : List PyStr,
      (order_tokens ts).Nodup ∧
      (∀ x, x ∈ order_tokens ts ↔ x ∈ ts) ∧
      order_tokens ts = MODIFIER_ORDER.filter (fun m => decide (m ∈ ts)) ++
        (order_tokens ts).filter (fun t => decide (t ∉ MODIFIER_ORDER)) ∧
      ((order_tokens ts).filter (fun t => decide (t ∉ MODIFIER_ORDER))).Sublist ts) ∧
    order_tokens [sA, sWin, sCtrl] = [sCtrl, sWin, sA] := by
  refine ⟨?_, by decide⟩
  intro ts
  obtain ⟨hsub, hnd, hmem⟩ := pyUnique_spec ts
  have hdef : order_tokens ts =
      MODIFIER_ORDER.filter (fun m => decide (m ∈ pyUnique ts)) ++
      (pyUnique ts).filter (fun t => decide (t ∉ MODIFIER_ORDER)) := rfl
  have hmodeq : MODIFIER_ORDER.filter (fun m => decide (m ∈ pyUnique ts)) =
      MODIFIER_ORDER.filter (fun m => decide (m ∈ ts)) := by
    apply List.filter_congr
    intro m _
    simp [hmem m]
  have hfilter_mods : (MODIFIER_ORDER.filter
      (fun m => decide (m ∈ pyUnique ts))).filter
      (fun t => decide (t ∉ MODIFIER_ORDER)) = [] := by
    rw [List.filter_eq_nil_iff]
    intro a ha
    have ham : a ∈ MODIFIER_ORDER := List.mem_of_mem_filter ha
    simp [ham]
  have hfilter_others : ((pyUnique ts).filter
      (fun t => decide (t ∉ MODIFIER_ORDER))).filter
      (fun t => decide (t ∉ MODIFIER_ORDER)) =
      (pyUnique ts).filter (fun t => decide (t ∉ MODIFIER_ORDER)) := by
    rw [List.filter_eq_self]
    intro a ha
    exact (List.mem_filter.mp ha).2
  refine ⟨?_, ?_, ?_, ?_⟩
  · rw [hdef]
    have hmod_nodup : MODIFIER_ORDER.Nodup := by decide
    refine List.Nodup.append (hmod_nodup.filter _) (hnd.filter _) ?_
    intro a ha hb
    have h1 : a ∈ MODIFIER_ORDER := List.mem_of_mem_filter ha
    have h2 := (List.mem_filter.mp hb).2
    have h3 : a ∉ MODIFIER_ORDER := by simpa using h2
    exact h3 h1
  · intro x
    rw [hdef]
    simp only [List.mem_append, List.mem_filter, decide_eq_true_eq]
    constructor
    · rintro (⟨_, hxu⟩ | ⟨hxu, _⟩)
      · exact (hmem x).mp (by simpa using hxu)
      · exact (hmem x).mp hxu
    · intro hx
      have hxu : x ∈ pyUnique ts := (hmem x).mpr hx
      by_cases hmo : x ∈ MODIFIER_ORDER
      · exact Or.inl ⟨hmo, by simpa using hxu⟩
      · exact Or.inr ⟨hxu, hmo⟩
  · conv_lhs => rw [hdef]
    rw [hdef, List.filter_append, hfilter_mods, hfilter_others, hmodeq]
    simp
  · rw [hdef, List.filter_append, hfilter_mods, hfilter_others]
    simpa using (List.filter_sublist (pyUnique ts)).trans hsub

/-- Claim C7 witness: the per-session level property applied to a
concrete successful run at 47 percent with one matching session. -/
theorem claim7_witness :
    ((0, clamp_level 47) : Nat × ℚ).2 = clamp_level 47 ∧ 0 ≤ clamp_level 47 := by
  have hv := (app_run_ok [] 47 (AppFaults.mk false false false false false false
      [SessionSpec.mk false false false (PidLookup.found sChromeExe) false false])
      (by decide)).2
  have hmem : ((0, clamp_level 47) : Nat × ℚ) ∈
      (set_application_volume_run [] 47 (AppFaults.mk false false false false false false
        [SessionSpec.mk false false false (PidLookup.found sChromeExe) false false])).2.1 := by
    rw [hv]
    show ((0, clamp_level 47) : Nat × ℚ) ∈ [((0 : Nat), clamp_level 47)]
    exact List.mem_singleton.mpr rfl
  exact ⟨(claim7_volume_level 47).2.2.2.2.1 [] _ _ hmem, (claim7_volume_level 47).2.1⟩
